import Mathlib

/-!
# riff: a shallow embedding of the log-record formatter

The development follows the Go sources `types.go`, `context.go` and `logger.go`.

* Go strings and byte slices are lists of bytes (`Bytes`), one natural number per byte, so
  `len` is `List.length` and `<` on strings is the lexicographic order on the byte values.
* `[]Field` values stored in a `context.Context` live in an explicit heap of backing arrays;
  a slice is a header `(arr, len, cap)` into that heap, so that `append` and the in-place sort
  have the sharing behaviour they have in Go.
* The variadic `fields ...Field` of a logging call is either a new array holding the fields
  written out at the call, or the caller's slice, cells of the heap (`Args`).
* Go `int` is a 64-bit two's complement integer (`wrapInt`).
* A panic (the unreachable branch of `levelName`, an index out of range) is the result `none`.
* What the Go runtime supplies (slice growth, time formatting, the current instant, the captured
  stack text) is a parameter.
-/

namespace Riff

/-! ## Bytes -/

/-- A Go `string` or `[]byte`: the sequence of its bytes. -/
abbrev Bytes := List Nat

/-- The bytes of an ASCII string literal. -/
def ascii (s : String) : Bytes := s.toList.map Char.toNat

/-- Go `int` arithmetic result: the value reduced to 64-bit two's complement. -/
def wrapInt (x : Int) : Int := (x + 2 ^ 63) % 2 ^ 64 - 2 ^ 63

/-- Go `for cond { body }`, run for at most `fuel` iterations. Evaluating the condition or the
body may panic (`none`); running out of fuel with the condition still true is `none` too. -/
def loopN {σ : Type} (cond : σ → Option Bool) (body : σ → Option σ) : Nat → σ → Option σ
  | 0, s => (cond s).bind fun c => if c then none else some s
  | n + 1, s => (cond s).bind fun c => if c then (body s).bind (loopN cond body n) else some s

/-! ## types.go -/

/-- `type Field struct { Key string; ValueFn ValueFn }`, with `ValueFn func([]byte) []byte`. -/
structure Field where
  Key : Bytes
  ValueFn : Bytes → Bytes

/-- `func field(key string, fn ValueFn) Field`. -/
def field (key : Bytes) (fn : Bytes → Bytes) : Field := { Key := key, ValueFn := fn }

/-- `func Str(key, value string) Field`. -/
def Str (key value : Bytes) : Field := field key (fun b => b ++ value)

/-- The zero `Field`, which fills the spare capacity of a freshly allocated array. It is never
rendered: every read of a slice stops at its length. -/
def Field.zero : Field := { Key := [], ValueFn := fun b => b }

/-- The decimal digits of `n` as ASCII codes, most significant first; `fuel` bounds the number
of digits, so the text is complete for `n < 10 ^ fuel`. -/
def decimalDigits : Nat → Nat → Bytes
  | 0, _ => []
  | fuel + 1, n =>
    if n < 10 then [48 + n] else decimalDigits fuel (n / 10) ++ [48 + n % 10]

/-- The text of `strconv.FormatUint(v, 10)` for a `uint64` value, per the documentation of
`strconv`: the base-10 digits of `v` (a `uint64` has at most 20). -/
def formatUint (v : Nat) : Bytes := decimalDigits 20 v

/-- The text of `strconv.FormatInt(v, 10)` for an `int64` value, per the documentation of
`strconv`: a minus sign for a negative value, then the base-10 digits of its magnitude. -/
def formatInt (v : Int) : Bytes :=
  if v < 0 then 45 :: formatUint v.natAbs else formatUint v.toNat

/-- `strconv.AppendInt(b, v, 10)`. -/
def AppendInt (b : Bytes) (v : Int) : Bytes := b ++ formatInt v

/-- `strconv.AppendUint(b, v, 10)`. -/
def AppendUint (b : Bytes) (v : Nat) : Bytes := b ++ formatUint v

/-- `strconv.AppendBool(b, v)`. -/
def AppendBool (b : Bytes) (v : Bool) : Bytes := b ++ (if v then ascii "true" else ascii "false")

/-- The number an unsigned decimal text denotes. -/
def decimalValue (t : Bytes) : Nat := t.foldl (fun acc c => acc * 10 + (c - 48)) 0

/-- The number a signed decimal text denotes. -/
def signedDecimalValue : Bytes → Int
  | 45 :: ds => -(decimalValue ds : Int)
  | ds => (decimalValue ds : Int)

/-- `time.Duration.Truncate`: `if m <= 0 { return d }; return d - d%m`, with the remainder of
Go, which has the sign of `d`. -/
def durationTruncate (d m : Int) : Int := if m ≤ 0 then d else d - Int.tmod d m

/-- A value of dynamic type, as the type switch of `Any` sees it: one constructor for each
`case`, and `other` for a value of any type without a `case` (told apart by an index). A
floating-point value is given by its IEEE 754 bits; an instant is in nanoseconds. -/
inductive GoValue where
  | string : Bytes → GoValue
  | bytes : Bytes → GoValue
  | int : Int → GoValue
  | int8 : Int → GoValue
  | int16 : Int → GoValue
  | int32 : Int → GoValue
  | int64 : Int → GoValue
  | uint : Nat → GoValue
  | uint8 : Nat → GoValue
  | uint16 : Nat → GoValue
  | uint32 : Nat → GoValue
  | uint64 : Nat → GoValue
  | float32 : Nat → GoValue
  | float64 : Nat → GoValue
  | bool : Bool → GoValue
  | duration : Int → GoValue
  | time : Int → GoValue
  | other : Nat → GoValue

/-- What `types.go` reads when a value is rendered: the package variables `DurationPrecision`
and `TimeFormat`, and the texts produced by the standard library. -/
structure Env where
  DurationPrecision : Int
  TimeFormat : Bytes
  /-- `formatFloat bits bitSize`: the text `strconv.AppendFloat(b, v, 'f', -1, bitSize)` adds. -/
  formatFloat : Nat → Nat → Bytes
  /-- The text of `time.Duration.String`. -/
  durationString : Int → Bytes
  /-- `format t layout`: the text of `t.Format(layout)`. -/
  format : Int → Bytes → Bytes
  /-- The text of `fmt.Sprint(value)`. -/
  sprint : GoValue → Bytes

/-- `func Cause(err error) Field`; `err` is the text of `err.Error()`. -/
def Cause (err : Bytes) : Field := Str (ascii "error") err

/-- `func Int64(key string, value int64) Field`. -/
def Int64 (key : Bytes) (value : Int) : Field := field key (fun b => AppendInt b value)

/-- `func Int(key string, value int) Field`, named `Int_` here; `int64(value)` is `value`. -/
def Int_ (key : Bytes) (value : Int) : Field := Int64 key value

/-- `func Uint64(key string, value uint64) Field`. -/
def Uint64 (key : Bytes) (value : Nat) : Field := field key (fun b => AppendUint b value)

/-- `func Uint(key string, value uint) Field`; `uint64(value)` is `value`. -/
def Uint (key : Bytes) (value : Nat) : Field := Uint64 key value

/-- `func Bool(key string, value bool) Field`, named `Bool_` here. -/
def Bool_ (key : Bytes) (value : Bool) : Field := field key (fun b => AppendBool b value)

/-- `func Float64(key string, value float64) Field`. -/
def Float64 (env : Env) (key : Bytes) (value : Nat) : Field :=
  field key (fun b => b ++ env.formatFloat value 64)

/-- `func Float32(key string, value float32) Field`. -/
def Float32 (env : Env) (key : Bytes) (value : Nat) : Field :=
  field key (fun b => b ++ env.formatFloat value 32)

/-- `func Duration(key string, value time.Duration) Field`. -/
def Duration (env : Env) (key : Bytes) (value : Int) : Field :=
  field key (fun b => b ++ env.durationString (durationTruncate value env.DurationPrecision))

/-- `func Time(key string, value time.Time) Field`. -/
def Time (env : Env) (key : Bytes) (value : Int) : Field :=
  field key (fun b => b ++ env.format value env.TimeFormat)

/-- `func Any(key string, value any) Field`. -/
def Any (env : Env) (key : Bytes) (value : GoValue) : Field :=
  match value with
  | .string v => Str key v
  | .bytes v => Str key v
  | .int v => Int_ key v
  | .int8 v => Int64 key v
  | .int16 v => Int64 key v
  | .int32 v => Int64 key v
  | .int64 v => Int64 key v
  | .uint v => Uint key v
  | .uint8 v => Uint64 key v
  | .uint16 v => Uint64 key v
  | .uint32 v => Uint64 key v
  | .uint64 v => Uint64 key v
  | .float32 v => Float32 env key v
  | .float64 v => Float64 env key v
  | .bool v => Bool_ key v
  | .duration v => Duration env key v
  | .time v => Time env key v
  | .other n => field key (fun b => b ++ env.sprint (.other n))

/-! ## Slices of fields and the heap of their backing arrays -/

/-- A `[]Field` header. Every slice the package stores starts at offset 0 of its array. -/
structure Slice where
  arr : Nat
  len : Nat
  cap : Nat

/-- The `nil` slice. -/
def Slice.nil : Slice := { arr := 0, len := 0, cap := 0 }

/-- The backing arrays allocated so far; a slice header names one by its index. -/
abbrev Heap := List (List Field)

/-- The backing array of a slice. -/
def Heap.array (h : Heap) (s : Slice) : List Field := h.getD s.arr []

/-- The elements `s[0], ..., s[len(s)-1]`. -/
def Heap.read (h : Heap) (s : Slice) : List Field := (h.array s).take s.len

/-- Store `vs` in the cells `s[0], ..., s[len(vs)-1]`. -/
def Heap.write (h : Heap) (s : Slice) (vs : List Field) : Heap :=
  h.set s.arr (vs ++ (h.array s).drop vs.length)

/-- A slice header is well formed in a heap: `len <= cap` and the array holds `cap` cells. -/
def Heap.WF (h : Heap) (s : Slice) : Prop := s.len ≤ s.cap ∧ s.cap ≤ (h.array s).length

/-- A slice of the caller: `len` cells from cell `off` of a backing array. `FromContext(ctx)`
has offset 0, `FromContext(ctx)[1:]` has offset 1. -/
structure Span where
  arr : Nat
  off : Nat
  len : Nat

/-- The cells `s[0], ..., s[len(s)-1]` of a stored slice, as a span. -/
def Slice.span (s : Slice) : Span := { arr := s.arr, off := 0, len := s.len }

/-- The elements of a span. -/
def Heap.readSpan (h : Heap) (w : Span) : List Field := ((h.getD w.arr []).drop w.off).take w.len

/-- Store `vs` in the first `len(vs)` cells of a span. -/
def Heap.writeSpan (h : Heap) (w : Span) (vs : List Field) : Heap :=
  h.set w.arr ((h.getD w.arr []).take w.off ++ vs ++ (h.getD w.arr []).drop (w.off + vs.length))

/-- The slice a variadic parameter `fields ...Field` receives. A call that writes the fields out,
`Info(ctx, msg, f1, f2)`, passes a new array holding them, which nothing else refers to; a call
that spreads a slice, `Info(ctx, msg, s...)`, passes the caller's slice itself, cells shared. -/
inductive Args where
  | fresh : List Field → Args
  | spread : Span → Args

/-- The `len(fields)` of the parameter. -/
def Args.len : Args → Nat
  | .fresh fs => fs.length
  | .spread w => w.len

/-- The elements `fields[0], ..., fields[len(fields)-1]`. -/
def Args.read (h : Heap) : Args → List Field
  | .fresh fs => fs
  | .spread w => h.readSpan w

/-- Store `vs` in the cells of the parameter: in the call's own array, or in the heap. -/
def Args.store (h : Heap) : Args → List Field → Heap × Args
  | .fresh _, vs => (h, .fresh vs)
  | .spread w, vs => (h.writeSpan w vs, .spread w)

/-- The loop of `nextslicecap` for large slices: `newcap += (newcap + 3*256) >> 2` until
`newcap >= newLen`. -/
def nextslicecapLoop (newLen : Nat) : Nat → Nat → Nat
  | 0, newcap => newcap
  | fuel + 1, newcap =>
    let newcap := newcap + (newcap + 3 * 256) / 4
    if newcap ≥ newLen then newcap else nextslicecapLoop newLen fuel newcap

/-- The growth rule of the Go runtime (`runtime.nextslicecap`): the capacity requested for the
new array when `append` needs `newLen` elements and the old capacity is `oldCap`. -/
def nextslicecap (newLen oldCap : Nat) : Nat :=
  let doublecap := oldCap + oldCap
  if newLen > doublecap then newLen
  else if oldCap < 256 then doublecap
  else nextslicecapLoop newLen newLen oldCap

/-- The size classes of the Go allocator in bytes (`runtime.class_to_size`). -/
def classToSize : List Nat :=
  [0, 8, 16, 24, 32, 48, 64, 80, 96, 112, 128, 144, 160, 176, 192, 208, 224, 240, 256, 288, 320,
    352, 384, 416, 448, 480, 512, 576, 640, 704, 768, 896, 1024, 1152, 1280, 1408, 1536, 1792,
    2048, 2304, 2688, 3072, 3200, 3456, 4096, 4864, 5376, 6144, 6528, 6784, 6912, 8192, 9472,
    9728, 10240, 10880, 12288, 13568, 14336, 16384, 18432, 19072, 20480, 21760, 24576, 27264,
    28672, 32768]

/-- The Go runtime's `roundupsize(size, noscan)` (Go 1.22) for an object that holds pointers:
the bytes the allocator hands out for a request of `size` bytes. A request of at most 32760
bytes, with the 8 bytes of a malloc header added when it is above 512 bytes, is rounded up to
the next size class and the header is taken off again; a larger request is rounded up to whole
pages of 8192 bytes. -/
def roundupsize (size : Nat) : Nat :=
  if size ≤ 32768 - 8 then
    let reqSize := if size > 512 then size + 8 else size
    ((classToSize.find? fun c => decide (reqSize ≤ c)).getD reqSize) - (reqSize - size)
  else (size + 8191) / 8192 * 8192

/-- The capacity `runtime.growslice` gives the new array of a `[]Field`: the request of
`nextslicecap` in bytes (a `Field` is a string header and a function value, 24 bytes), rounded
up by the allocator, in fields. -/
def growslice (newLen oldCap : Nat) : Nat :=
  roundupsize (24 * nextslicecap newLen oldCap) / 24

/-- What the Go runtime and standard library supply. -/
structure Runtime where
  /-- `grow newLen oldCap`: capacity of the array `append` allocates when the old one is full. -/
  grow : Nat → Nat → Nat
  /-- `format t layout`: the text of `t.Format(layout)`. -/
  format : Int → Bytes → Bytes

/-- Go `append(s, vs...)` on field slices. With enough capacity the new elements are written
into the cells after `len(s)` of the array `s` already uses; otherwise a new array is allocated,
the elements of `s` are copied into it and `vs` stored after them. -/
def appendFields (rt : Runtime) (h : Heap) (s : Slice) (vs : List Field) : Heap × Slice :=
  let n := s.len + vs.length
  if n ≤ s.cap then
    (h.set s.arr ((h.array s).take s.len ++ vs ++ (h.array s).drop n),
      { arr := s.arr, len := n, cap := s.cap })
  else
    let c := max n (rt.grow n s.cap)
    (h ++ [h.read s ++ vs ++ List.replicate (c - n) Field.zero],
      { arr := h.length, len := n, cap := c })

/-! ## context.go -/

/-- A `context.Context` as far as the package sees it: the background, a context made by
`WithContext` (it carries the slice header stored under `contextKey`), or a context derived in
any other way (another key, a deadline), through which lookups reach the parent. -/
inductive Context where
  | background : Context
  | withFields : Context → Slice → Context
  | derived : Context → Context

/-- `func FromContext(ctx context.Context) []Field`. -/
def FromContext : Context → Slice
  | .background => Slice.nil
  | .withFields _ v => v
  | .derived p => FromContext p

/-- `func WithContext(ctx context.Context, fields ...Field) context.Context`. -/
def WithContext (rt : Runtime) (h : Heap) (ctx : Context) (fields : List Field) :
    Heap × Context :=
  let r := appendFields rt h (FromContext ctx) fields
  (r.1, Context.withFields ctx r.2)

/-! ## logger.go -/

/-- `type Level int`. -/
abbrev Level := Int

def LevelTrace : Level := 0
def LevelDebug : Level := 1
def LevelInfo : Level := 2
def LevelWarn : Level := 3
def LevelError : Level := 4
def LevelPanic : Level := 5
def LevelFatal : Level := 6

def colorRed : Bytes := ascii "\x1b[31m"
def colorYellow : Bytes := ascii "\x1b[33m"
def colorCyan : Bytes := ascii "\x1b[36m"
def colorOffWhite : Bytes := ascii "\x1b[37m"
def colorRedBg : Bytes := ascii "\x1b[48;5;88m"
def colorWhite : Bytes := ascii "\x1b[38;5;255m"
def colorReset : Bytes := ascii "\x1b[0m"

/-- `type Config struct`; the `Output` writer is the `output` component of `State`. -/
structure Config where
  Level : Level
  Time : Bool
  TimeFormat : Bytes
  TimePrecision : Int
  Color : Bool
  MinMessageWidth : Int
  SortFields : Bool
  StackTraceLevel : Riff.Level
  StackTraceSkip : Int

/-- The closure returned by `timeCache`: its two arguments and its two captured variables. An
instant is the number of nanoseconds since the zero `time.Time`. -/
structure TimeCache where
  format : Bytes
  precision : Int
  lastTime : Int
  lastTimeStr : Bytes

/-- `time.Time.Sub`: the difference, saturated to the range of `time.Duration`. -/
def timeSub (t u : Int) : Int := max (-(2 ^ 63)) (min (2 ^ 63 - 1) (t - u))

/-- `func timeCache(format string, precision time.Duration) func(time.Time) string`. -/
def timeCache (format : Bytes) (precision : Int) : TimeCache :=
  { format := format, precision := precision, lastTime := 0, lastTimeStr := [] }

/-- One call of the closure returned by `timeCache`: the text and the closure afterwards. -/
def TimeCache.call (rt : Runtime) (c : TimeCache) (t : Int) : Bytes × TimeCache :=
  if !(c.lastTime == 0) && decide (timeSub t c.lastTime < c.precision) then
    (c.lastTimeStr, c)
  else
    (rt.format t c.format, { c with lastTime := t, lastTimeStr := rt.format t c.format })

/-- `type Logger struct`; `timeCache` is `none` for the nil function. -/
structure Logger where
  cfg : Config
  timeCache : Option TimeCache

/-- `func New(cfg Config) *Logger`. -/
def New (cfg : Config) : Logger :=
  { cfg := cfg
    timeCache :=
      if cfg.TimePrecision > 0 then some (timeCache cfg.TimeFormat cfg.TimePrecision) else none }

/-- What a call can change outside the logger: the heap of field arrays, the byte sequences
written to `cfg.Output` (oldest first) and the status of `os.Exit` once it was called. -/
structure State where
  heap : Heap
  output : List Bytes
  exited : Option Int

/-- `func (l *Logger) levelName(lev Level) string`; the `default` branch panics. -/
def Logger.levelName (_l : Logger) (lev : Level) : Option Bytes :=
  if lev = LevelTrace then some (ascii "TRAC")
  else if lev = LevelDebug then some (ascii "DEBU")
  else if lev = LevelInfo then some (ascii "INFO")
  else if lev = LevelWarn then some (ascii "WARN")
  else if lev = LevelError then some (ascii "ERRO")
  else if lev = LevelPanic then some (ascii "PANI")
  else if lev = LevelFatal then some (ascii "FATA")
  else none

/-- `func (l *Logger) writeColorized(buf *[]byte, lev Level, str string)`. -/
def Logger.writeColorized (l : Logger) (buf : Bytes) (lev : Level) (str : Bytes) : Bytes :=
  if !l.cfg.Color then buf ++ str
  else
    let buf :=
      if lev = LevelTrace ∨ lev = LevelDebug then buf ++ colorOffWhite
      else if lev = LevelInfo then buf ++ colorCyan
      else if lev = LevelWarn then buf ++ colorYellow
      else if lev = LevelError then buf ++ colorRed
      else if lev = LevelPanic ∨ lev = LevelFatal then (buf ++ colorRedBg) ++ colorWhite
      else buf
    (buf ++ str) ++ colorReset

/-- `func (l *Logger) printTime(buf *[]byte)`, at the instant `now`: the buffer and the
logger's time cache afterwards. -/
def Logger.printTime (rt : Runtime) (l : Logger) (now : Int) (buf : Bytes) :
    Bytes × Option TimeCache :=
  if !l.cfg.Time then (buf, l.timeCache)
  else
    match l.timeCache with
    | some c => ((buf ++ (c.call rt now).1) ++ [32], some (c.call rt now).2)
    | none => ((buf ++ rt.format now l.cfg.TimeFormat) ++ [32], none)

/-- `func (l *Logger) printLevel(buf *[]byte, lev Level)`. -/
def Logger.printLevel (l : Logger) (buf : Bytes) (lev : Level) : Option Bytes :=
  (l.levelName lev).map fun name => l.writeColorized buf lev name ++ [32]

/-- `func (l *Logger) printMessage(buf *[]byte, msg string, needsPad bool)`. -/
def Logger.printMessage (l : Logger) (buf : Bytes) (msg : Bytes) (needsPad : Bool) : Bytes :=
  let buf := buf ++ msg
  if l.cfg.MinMessageWidth > 0 then
    let buf :=
      buf ++ List.replicate (wrapInt (wrapInt (l.cfg.MinMessageWidth + 2) - msg.length)).toNat 32
    if (msg.length : Int) > l.cfg.MinMessageWidth then buf ++ [32, 32] else buf
  else if needsPad then buf ++ [32, 32]
  else buf

/-- `func (l *Logger) printField(buf *[]byte, lev Level, f Field, pad bool)`. -/
def Logger.printField (l : Logger) (buf : Bytes) (lev : Level) (f : Field) (pad : Bool) :
    Bytes :=
  let buf := if pad then buf ++ [32] else buf
  let buf := l.writeColorized buf lev f.Key
  let buf := buf ++ [61]
  f.ValueFn buf

/-- The inner loop of `insertionSort`, from `j` downwards:
`for ; j > 0 && f[j].Key < f[j-1].Key; j-- { f[j], f[j-1] = f[j-1], f[j] }`. -/
def insertionSortInner (f : List Field) : Nat → Option (List Field)
  | 0 => some f
  | j + 1 =>
    (f[j + 1]?).bind fun x => (f[j]?).bind fun y =>
      if x.Key < y.Key then insertionSortInner ((f.set (j + 1) y).set j x) j else some f

/-- `func insertionSort(f []Field)` on the elements of the slice: the outer loop
`for i := 1; i < len(f); i++` runs from the state `(f, 1)`. -/
def insertionSort (f : List Field) : Option (List Field) :=
  (loopN (fun s : List Field × Nat => some (decide (s.2 < s.1.length)))
    (fun s => (insertionSortInner s.1 s.2).map fun g => (g, s.2 + 1)) f.length (f, 1)).map
    Prod.fst

/-- `func sortFields(f []Field)` on the elements of the slice. -/
def sortFields (f : List Field) : Option (List Field) :=
  if f.length > 1 then insertionSort f else some f

/-- The state of the loops of `printFieldsSorted`: the indices `i`, `j` and the buffer. -/
structure MergeState where
  i : Nat
  j : Nat
  buf : Bytes

/-- The body of the first loop of `printFieldsSorted`, over the sorted carrier fields `a` and the
sorted explicit fields `b`: print `a[i]` when its key is smaller than that of `b[j]`, else
print `b[j]`. -/
def Logger.mergeStep (l : Logger) (lev : Level) (a b : List Field) (s : MergeState) :
    Option MergeState :=
  (a[s.i]?).bind fun x => (b[s.j]?).bind fun y =>
    if x.Key < y.Key then
      some { i := s.i + 1, j := s.j, buf := l.printField s.buf lev x (decide (s.i + s.j > 0)) }
    else
      some { i := s.i, j := s.j + 1, buf := l.printField s.buf lev y (decide (s.i + s.j > 0)) }

/-- The body of the second loop of `printFieldsSorted`: print `a[i]`. -/
def Logger.restStepA (l : Logger) (lev : Level) (a : List Field) (s : MergeState) :
    Option MergeState :=
  (a[s.i]?).map fun x =>
    { i := s.i + 1, j := s.j, buf := l.printField s.buf lev x (decide (s.i + s.j > 0)) }

/-- The body of the third loop of `printFieldsSorted`: print `b[j]`. -/
def Logger.restStepB (l : Logger) (lev : Level) (b : List Field) (s : MergeState) :
    Option MergeState :=
  (b[s.j]?).map fun y =>
    { i := s.i, j := s.j + 1, buf := l.printField s.buf lev y (decide (s.i + s.j > 0)) }

/-- The three loops of `printFieldsSorted` over the sorted slices `a` and `b`, from
`i = j = 0`: the buffer afterwards. -/
def Logger.printMerged (l : Logger) (lev : Level) (a b : List Field) (buf : Bytes) :
    Option Bytes :=
  (loopN (fun s : MergeState => some (decide (s.i < a.length) && decide (s.j < b.length)))
    (l.mergeStep lev a b) (a.length + b.length) { i := 0, j := 0, buf := buf }).bind fun s1 =>
  (loopN (fun s : MergeState => some (decide (s.i < a.length)))
    (l.restStepA lev a) a.length s1).bind fun s2 =>
  (loopN (fun s : MergeState => some (decide (s.j < b.length)))
    (l.restStepB lev b) b.length s2).map fun s3 => s3.buf

/-- `func (l *Logger) printFieldsSorted(ctx, buf, lev, fields)`. The carrier slice
`a := FromContext(ctx)` is sorted in its backing array, then `b := fields` is read and sorted in
its cells, which may be cells of the same array; the loops read `a[i]` and `b[j]` after both
sorts. Returns the heap and the buffer afterwards. -/
def Logger.printFieldsSorted (l : Logger) (h : Heap) (ctx : Context) (buf : Bytes)
    (lev : Level) (fields : Args) : Option (Heap × Bytes) :=
  (sortFields (h.read (FromContext ctx))).bind fun a =>
  let h := h.write (FromContext ctx) a
  (sortFields (fields.read h)).bind fun b =>
  let r := fields.store h b
  (l.printMerged lev (r.1.read (FromContext ctx)) (r.2.read r.1) buf).map fun buf => (r.1, buf)

/-- The body of `for i, f := range fs { l.printField(buf, lev, f, i+off > 0) }`. -/
def Logger.printFieldsFrom (l : Logger) (lev : Level) (off : Nat) :
    List Field → Nat → Bytes → Bytes
  | [], _, buf => buf
  | f :: fs, i, buf =>
    Logger.printFieldsFrom l lev off fs (i + 1) (l.printField buf lev f (decide (i + off > 0)))

/-- `func (l *Logger) printFieldsUnsorted(ctx, buf, lev, fields)`. -/
def Logger.printFieldsUnsorted (l : Logger) (h : Heap) (ctx : Context) (buf : Bytes)
    (lev : Level) (fields : Args) : Bytes :=
  let buf := l.printFieldsFrom lev 0 (fields.read h) 0 buf
  l.printFieldsFrom lev fields.len (h.read (FromContext ctx)) 0 buf

/-- `func (l *Logger) printFields(ctx, buf, lev, fields)`. -/
def Logger.printFields (l : Logger) (h : Heap) (ctx : Context) (buf : Bytes) (lev : Level)
    (fields : Args) : Option (Heap × Bytes) :=
  if l.cfg.SortFields then l.printFieldsSorted h ctx buf lev fields
  else some (h, l.printFieldsUnsorted h ctx buf lev fields)

/-- `func (l *Logger) printStackTrace(buf *[]byte, lev Level)`; `stack skip` is the text
`stackTrace(skip)` returns at the call site. -/
def Logger.printStackTrace (l : Logger) (stack : Int → Bytes) (buf : Bytes) (lev : Level) :
    Bytes :=
  if lev ≥ l.cfg.StackTraceLevel then (buf ++ stack l.cfg.StackTraceSkip) ++ [10] else buf

/-- `func (l *Logger) print(ctx, lev, msg, fields)` at the instant `now`. The buffer taken from
the pool has length zero; the finished buffer is passed to `Output.Write` once. -/
def Logger.print (rt : Runtime) (l : Logger) (s : State) (now : Int) (stack : Int → Bytes)
    (ctx : Context) (lev : Level) (msg : Bytes) (fields : Args) :
    Option (Logger × State) :=
  if lev < l.cfg.Level then some (l, s)
  else
    let t := l.printTime rt now []
    (l.printLevel t.1 lev).bind fun buf =>
    let buf := l.printMessage buf msg (decide (fields.len > 0))
    (l.printFields s.heap ctx buf lev fields).map fun r =>
    let buf := r.2 ++ [10]
    let buf := l.printStackTrace stack buf lev
    ({ l with timeCache := t.2 }, { s with heap := r.1, output := s.output ++ [buf] })

/-- `func (l *Logger) Trace(ctx, msg, fields...)`. -/
def Logger.Trace (rt : Runtime) (l : Logger) (s : State) (now : Int) (stack : Int → Bytes)
    (ctx : Context) (msg : Bytes) (fields : Args) : Option (Logger × State) :=
  if l.cfg.Level = LevelTrace then l.print rt s now stack ctx LevelTrace msg fields
  else some (l, s)

/-- `func (l *Logger) Debug(ctx, msg, fields...)`. -/
def Logger.Debug (rt : Runtime) (l : Logger) (s : State) (now : Int) (stack : Int → Bytes)
    (ctx : Context) (msg : Bytes) (fields : Args) : Option (Logger × State) :=
  if l.cfg.Level ≤ LevelDebug then l.print rt s now stack ctx LevelDebug msg fields
  else some (l, s)

/-- `func (l *Logger) Info(ctx, msg, fields...)`. -/
def Logger.Info (rt : Runtime) (l : Logger) (s : State) (now : Int) (stack : Int → Bytes)
    (ctx : Context) (msg : Bytes) (fields : Args) : Option (Logger × State) :=
  if l.cfg.Level ≤ LevelInfo then l.print rt s now stack ctx LevelInfo msg fields
  else some (l, s)

/-- `func (l *Logger) Warn(ctx, msg, fields...)`. -/
def Logger.Warn (rt : Runtime) (l : Logger) (s : State) (now : Int) (stack : Int → Bytes)
    (ctx : Context) (msg : Bytes) (fields : Args) : Option (Logger × State) :=
  if l.cfg.Level ≤ LevelWarn then l.print rt s now stack ctx LevelWarn msg fields
  else some (l, s)

/-- `func (l *Logger) Error(ctx, msg, fields...)`. -/
def Logger.Error (rt : Runtime) (l : Logger) (s : State) (now : Int) (stack : Int → Bytes)
    (ctx : Context) (msg : Bytes) (fields : Args) : Option (Logger × State) :=
  if l.cfg.Level ≤ LevelError then l.print rt s now stack ctx LevelError msg fields
  else some (l, s)

/-- `func (l *Logger) Panic(ctx, msg, fields...)`. -/
def Logger.Panic (rt : Runtime) (l : Logger) (s : State) (now : Int) (stack : Int → Bytes)
    (ctx : Context) (msg : Bytes) (fields : Args) : Option (Logger × State) :=
  if l.cfg.Level ≤ LevelPanic then l.print rt s now stack ctx LevelPanic msg fields
  else some (l, s)

/-- `func (l *Logger) Fatal(ctx, msg, fields...)`: `print`, then `os.Exit(1)`. -/
def Logger.Fatal (rt : Runtime) (l : Logger) (s : State) (now : Int) (stack : Int → Bytes)
    (ctx : Context) (msg : Bytes) (fields : Args) : Option (Logger × State) :=
  (l.print rt s now stack ctx LevelFatal msg fields).map fun r =>
    (r.1, { r.2 with exited := some 1 })

/-- The runtime used in the worked examples: Go's growth rule; the time layout is not used. -/
def goRuntime : Runtime := { grow := growslice, format := fun _ _ => [] }

/-- A scope to which no fields were attached: no `WithContext` on the way to the background. -/
def Context.Bare : Context → Prop
  | .background => True
  | .withFields _ _ => False
  | .derived p => Context.Bare p

/-- The sibling example, step 1: a parent scope built by three single-field attaches. -/
def siblingParent : Heap × Context :=
  WithContext goRuntime
    (WithContext goRuntime
      (WithContext goRuntime [] Context.background [Str (ascii "k1") (ascii "1")]).1
      (WithContext goRuntime [] Context.background [Str (ascii "k1") (ascii "1")]).2
      [Str (ascii "k2") (ascii "2")]).1
    (WithContext goRuntime
      (WithContext goRuntime [] Context.background [Str (ascii "k1") (ascii "1")]).1
      (WithContext goRuntime [] Context.background [Str (ascii "k1") (ascii "1")]).2
      [Str (ascii "k2") (ascii "2")]).2
    [Str (ascii "k3") (ascii "3")]

/-- The sibling example, step 2: a first child of the parent, with the field `x`. -/
def siblingFirst : Heap × Context :=
  WithContext goRuntime siblingParent.1 siblingParent.2 [Str (ascii "x") (ascii "4")]

/-- The sibling example, step 3: then a second child of the same parent, with the field `y`. -/
def siblingSecond : Heap × Context :=
  WithContext goRuntime siblingFirst.1 siblingParent.2 [Str (ascii "y") (ascii "5")]

/-- A scope whose fields were attached in the order `zone`, `foo`. -/
def zoneFoo : Heap × Context :=
  WithContext goRuntime [] Context.background
    [Str (ascii "zone") (ascii "two"), Str (ascii "foo") (ascii "bar")]

/-- The shared-array example, step 1: a scope built by three single-field attaches `m`, `z`,
`a`; its slice has length 3 and capacity 4. -/
def sharedParent : Heap × Context :=
  WithContext goRuntime
    (WithContext goRuntime
      (WithContext goRuntime [] Context.background [Str (ascii "m") (ascii "1")]).1
      (WithContext goRuntime [] Context.background [Str (ascii "m") (ascii "1")]).2
      [Str (ascii "z") (ascii "2")]).1
    (WithContext goRuntime
      (WithContext goRuntime [] Context.background [Str (ascii "m") (ascii "1")]).1
      (WithContext goRuntime [] Context.background [Str (ascii "m") (ascii "1")]).2
      [Str (ascii "z") (ascii "2")]).2
    [Str (ascii "a") (ascii "3")]

/-- The shared-array example, step 2: a child of that scope with the field `b`, which `append`
stores in the spare cell of the parent's array. -/
def sharedChild : Heap × Context :=
  WithContext goRuntime sharedParent.1 sharedParent.2 [Str (ascii "b") (ascii "4")]

/-- The shared-array example, step 3: the argument of `Info(child, msg, FromContext(parent)...)`,
the parent's slice itself. -/
def sharedArgs : Args := Args.spread (FromContext sharedParent.2).span

/-- The empty state: nothing allocated, nothing written. -/
def State.init : State := { heap := [], output := [], exited := none }

/-- The configuration of `TestBare` (all optional features off), at minimum level Debug. -/
def bareConfig : Config :=
  { Level := LevelDebug, Time := false, TimeFormat := [], TimePrecision := 0, Color := false,
    MinMessageWidth := 0, SortFields := false, StackTraceLevel := LevelError,
    StackTraceSkip := 0 }

/-- Order of two fields that the inner loop of `insertionSort` leaves in place: the later one's
key is not smaller than the earlier one's. `keyGE x y` reads "x may stay behind y". -/
def keyGE (a b : Field) : Prop := ¬ a.Key < b.Key

instance keyGE_decidable : DecidableRel keyGE :=
  fun a b => inferInstanceAs (Decidable (¬ a.Key < b.Key))

instance keyGE_total : IsTotal Field keyGE :=
  ⟨fun a b => by
    unfold keyGE
    rcases lt_or_ge a.Key b.Key with h | h
    · exact Or.inr (not_lt.mpr (le_of_lt h))
    · exact Or.inl (not_lt.mpr h)⟩

instance keyGE_trans : IsTrans Field keyGE :=
  ⟨fun a b c hab hbc => by
    unfold keyGE at *
    simp only [not_lt] at *
    exact le_trans hbc hab⟩

/-- The result of `insertionSort`, as a function: every element, from left to right, is inserted
into the already sorted part from its right end. -/
def stableSort (f : List Field) : List Field :=
  (List.foldl (fun acc x => List.orderedInsert keyGE x acc) [] f).reverse

/-- The order in which `printFieldsSorted` prints the carrier fields `a` and the explicit fields
`b`: each sequence sorted, then merged, a carrier field going first only when its key is
strictly smaller. -/
def emitted (a b : List Field) : List Field :=
  List.merge (stableSort a) (stableSort b) (fun x y => decide (x.Key < y.Key))

/-- The call `r`, made in state `s`, returned after exactly one write to the output: one
newline-terminated record was added, and the process was not ended. -/
def WritesOnce (s : State) (r : Option (Logger × State)) : Prop :=
  ∃ (l' : Logger) (s' : State) (body : Bytes),
    r = some (l', s') ∧ s'.output = s.output ++ [body ++ [10]] ∧ s'.exited = s.exited

/-- The result `r` of the entry point of level `lev`, called on logger `l` in state `s`, obeys
the level filter: one write when `lev` is at least the configured minimum, and otherwise
nothing at all (logger and state are returned as they were). -/
def FiltersAt (l : Logger) (s : State) (lev : Level) (r : Option (Logger × State)) : Prop :=
  (l.cfg.Level ≤ lev → WritesOnce s r) ∧ (lev < l.cfg.Level → r = some (l, s))

/-- `defaultMessageWidth`. -/
def defaultMessageWidth : Int := 40

/-- `defaultTimeFormat`. -/
def defaultTimeFormat : Bytes := ascii "2006-01-02 15:04:05.000"

/-- `func DefaultConfig() Config`; `Output: os.Stderr` is the `output` component of `State`. -/
def DefaultConfig : Config :=
  { Level := LevelInfo, Time := true, TimeFormat := defaultTimeFormat, TimePrecision := 0,
    Color := true, MinMessageWidth := defaultMessageWidth, SortFields := true,
    StackTraceLevel := LevelError, StackTraceSkip := 4 }

/-- The field's `ValueFn` appends exactly the bytes `v` to whatever buffer it is given. -/
def Field.Renders (f : Field) (v : Bytes) : Prop := ∀ b : Bytes, f.ValueFn b = b ++ v

/-- The field's `ValueFn` only appends: the buffer it is given comes back unchanged, followed
by bytes that do not depend on the buffer. -/
def Field.AppendOnly (f : Field) : Prop := ∃ v : Bytes, f.Renders v

/-- The escape sequence the design assigns to a level: one colour shared by trace and debug, one
each for info, warn and error, and for panic and fatal a background escape followed by a
foreground escape; nothing for a value that is no level. -/
def levelEscape (lev : Level) : Bytes :=
  if lev = LevelTrace ∨ lev = LevelDebug then colorOffWhite
  else if lev = LevelInfo then colorCyan
  else if lev = LevelWarn then colorYellow
  else if lev = LevelError then colorRed
  else if lev = LevelPanic ∨ lev = LevelFatal then colorRedBg ++ colorWhite
  else []

/-- The timestamp text of a record made at the instant `now`: what the time cache returns when
the logger has one, else `now` formatted with `TimeFormat`. -/
def Logger.timeText (rt : Runtime) (l : Logger) (now : Int) : Bytes :=
  match l.timeCache with
  | some c => (c.call rt now).1
  | none => rt.format now l.cfg.TimeFormat

/-- An environment that agrees with Go on the `float64` value 1000000 (IEEE 754 bits
`0x412E848000000000`): `strconv.AppendFloat(b, v, 'f', -1, 64)` adds `1000000`, and
`fmt.Sprint(v)` is `1e+06`. Everything else is left empty. -/
def floatEnv : Env :=
  { DurationPrecision := 1000000
    TimeFormat := ascii "2006-01-02T15:04:05Z07:00"
    formatFloat := fun bits size =>
      if bits = 4696837146684686336 ∧ size = 64 then ascii "1000000" else []
    durationString := fun _ => []
    format := fun _ _ => []
    sprint := fun v =>
      match v with
      | .float64 bits => if bits = 4696837146684686336 then ascii "1e+06" else []
      | _ => [] }

/-- A time cache of precision 1 ms whose slot was filled at the instant 5 s. -/
def filledCache : TimeCache :=
  { format := ascii "15:04:05", precision := 1000000, lastTime := 5000000000,
    lastTimeStr := ascii "00:00:05" }

/-- `fmtFrac` of package `time`: the fraction of `v / 10^prec` as text (trailing zeros and, for
a zero fraction, the decimal point left out), and the value `v / 10^prec`. The loop runs over
the `prec` lowest digits; `seen` is its variable `print`. -/
def fmtFrac : Nat → Nat → Bool → Bytes → Bytes × Nat
  | 0, v, seen, acc => (if seen then 46 :: acc else acc, v)
  | prec + 1, v, seen, acc =>
    fmtFrac prec (v / 10) (seen || decide (v % 10 ≠ 0))
      (if seen || decide (v % 10 ≠ 0) then (48 + v % 10) :: acc else acc)

/-- The text of `time.Duration.String`, after the source of package `time`: below one second
the units `ns`, `µs`, `ms` with a fraction, from one second on hours, minutes and seconds. -/
def goDurationString (d : Int) : Bytes :=
  if d.natAbs < 1000000000 then
    if d.natAbs = 0 then ascii "0s"
    else if d.natAbs < 1000 then
      (if d < 0 then [45] else []) ++ formatUint d.natAbs ++ ascii "ns"
    else if d.natAbs < 1000000 then
      (if d < 0 then [45] else []) ++ formatUint (fmtFrac 3 d.natAbs false []).2
        ++ (fmtFrac 3 d.natAbs false []).1 ++ [194, 181, 115]
    else
      (if d < 0 then [45] else []) ++ formatUint (fmtFrac 6 d.natAbs false []).2
        ++ (fmtFrac 6 d.natAbs false []).1 ++ ascii "ms"
  else
    (if d < 0 then [45] else [])
      ++ (if (fmtFrac 9 d.natAbs false []).2 / 60 > 0 then
            (if (fmtFrac 9 d.natAbs false []).2 / 60 / 60 > 0 then
               formatUint ((fmtFrac 9 d.natAbs false []).2 / 60 / 60) ++ [104]
             else [])
              ++ formatUint ((fmtFrac 9 d.natAbs false []).2 / 60 % 60) ++ [109]
          else [])
      ++ formatUint ((fmtFrac 9 d.natAbs false []).2 % 60)
      ++ (fmtFrac 9 d.natAbs false []).1 ++ [115]

/-- An environment with the default `DurationPrecision` of one millisecond and the duration
text of Go. -/
def durationEnv : Env := { floatEnv with durationString := goDurationString }

/-- A runtime whose text for an instant is the decimal number of the instant, so that
different instants have different texts. -/
def stampRuntime : Runtime := { grow := growslice, format := fun t _ => formatInt t }

/-- The calls of the closure returned by `timeCache`, one after the other at the instants `ts`:
for each call the text it returned and the closure afterwards. -/
def TimeCache.calls (rt : Runtime) (c : TimeCache) : List Int → List (Bytes × TimeCache)
  | [] => []
  | t :: ts => c.call rt t :: TimeCache.calls rt (c.call rt t).2 ts

/-- Where one call of the closure returned by `timeCache` stands: before the test of the `if`,
before `return lastTimeStr` of the cached branch, before `lastTime = t`, before
`lastTimeStr = t.Format(format)`, before the final `return lastTimeStr`, or returned. -/
inductive CachePc where
  | test : CachePc
  | retCached : CachePc
  | setTime : CachePc
  | setStr : CachePc
  | retFresh : CachePc
  | done : CachePc
  deriving DecidableEq

/-- One call of the closure in progress: its argument `t`, its position, and the text it
returned once it is done. -/
structure CacheCall where
  t : Int
  pc : CachePc
  result : Bytes

/-- A call at instant `t` that has not started. -/
def CacheCall.start (t : Int) : CacheCall := { t := t, pc := CachePc.test, result := [] }

/-- One statement of a call of the closure, on the captured variables shared by all calls.
`print` calls `printTime` before it takes `l.lock`, and the closure takes no lock, so nothing
orders the statements of two calls that run at the same time. -/
def TimeCache.step (rt : Runtime) (c : TimeCache) (k : CacheCall) : TimeCache × CacheCall :=
  match k.pc with
  | .test =>
    if !(c.lastTime == 0) && decide (timeSub k.t c.lastTime < c.precision) then
      (c, { k with pc := CachePc.retCached })
    else (c, { k with pc := CachePc.setTime })
  | .retCached => (c, { k with pc := CachePc.done, result := c.lastTimeStr })
  | .setTime => ({ c with lastTime := k.t }, { k with pc := CachePc.setStr })
  | .setStr =>
    ({ c with lastTimeStr := rt.format k.t c.format }, { k with pc := CachePc.retFresh })
  | .retFresh => (c, { k with pc := CachePc.done, result := c.lastTimeStr })
  | .done => (c, k)

/-- Two calls running at the same time under a schedule: `false` lets the first call execute
its next statement, `true` the second. -/
def TimeCache.interleave (rt : Runtime) :
    List Bool → TimeCache × CacheCall × CacheCall → TimeCache × CacheCall × CacheCall
  | [], s => s
  | false :: sched, (c, a, b) =>
    TimeCache.interleave rt sched ((c.step rt a).1, (c.step rt a).2, b)
  | true :: sched, (c, a, b) =>
    TimeCache.interleave rt sched ((c.step rt b).1, a, (c.step rt b).2)

/-- Two calls of one closure (precision 1 ms, slot never filled) at the instants 5 s and
5.0004 s, run under the schedule: first call tests, second call tests, first call stores its
instant, second call stores its instant, stores its text and returns, first call stores its
text and returns. -/
def racedCalls : TimeCache × CacheCall × CacheCall :=
  TimeCache.interleave stampRuntime [false, true, false, true, true, true, false, false]
    (timeCache [] 1000000, CacheCall.start 5000000000, CacheCall.start 5000400000)

/-! ## Slices and contexts -/

theorem growslice_small :
    growslice 1 0 = 1 ∧ growslice 2 1 = 2 ∧ growslice 3 2 = 4 ∧ growslice 5 4 = 8
      ∧ growslice 2 0 = 2 ∧ growslice 3 0 = 3 ∧ growslice 5 0 = 5 ∧ growslice 11 0 = 12 := by
  decide

theorem array_set_self (h : Heap) (s : Slice) (v : List Field) (hv : s.arr < h.length) :
    Heap.array (h.set s.arr v) s = v := by
  simp [Heap.array, List.getD_eq_getElem?_getD, List.getElem?_set, hv]

theorem array_lt_of_pos (h : Heap) (s : Slice) (hpos : 0 < (h.array s).length) :
    s.arr < h.length := by
  by_contra hge
  have : h.array s = [] := by
    simp [Heap.array, List.getD_eq_getElem?_getD, List.getElem?_eq_none (not_lt.mp hge)]
  simp [this] at hpos

theorem read_length (h : Heap) (s : Slice) (hwf : h.WF s) : (h.read s).length = s.len := by
  have := hwf.1; have := hwf.2
  simp [Heap.read]; omega

theorem appendFields_read (rt : Runtime) (h : Heap) (s : Slice) (vs : List Field)
    (hwf : h.WF s) :
    (appendFields rt h s vs).1.read (appendFields rt h s vs).2 = h.read s ++ vs := by
  have hlen := read_length h s hwf
  unfold appendFields
  by_cases hn : s.len + vs.length ≤ s.cap
  · simp only [hn, if_true]
    by_cases hpos : 0 < (h.array s).length
    · have hlt := array_lt_of_pos h s hpos
      have e : Heap.array (h.set s.arr (List.take s.len (h.array s) ++ vs ++
          List.drop (s.len + vs.length) (h.array s)))
          { arr := s.arr, len := s.len + vs.length, cap := s.cap } =
          List.take s.len (h.array s) ++ vs ++ List.drop (s.len + vs.length) (h.array s) :=
        array_set_self h { arr := s.arr, len := s.len + vs.length, cap := s.cap } _ hlt
      simp only [Heap.read] at hlen ⊢
      rw [e, List.take_append_eq_append_take]
      simp [hlen]
    · have h0 : (h.array s).length = 0 := by omega
      have hc := hwf.2
      have hl := hwf.1
      have hs0 : s.len = 0 := by omega
      have : vs = [] := by
        apply List.eq_nil_of_length_eq_zero; omega
      subst this
      simp [Heap.read, hs0]
  · simp only [hn, if_false]
    simp only [Heap.read, Heap.array] at hlen ⊢
    simp [List.getD_eq_getElem?_getD, List.take_append_eq_append_take, hlen]
    simp [List.getD_eq_getElem?_getD] at hlen
    simp [hlen]

theorem appendFields_wf (rt : Runtime) (h : Heap) (s : Slice) (vs : List Field)
    (hwf : h.WF s) : (appendFields rt h s vs).1.WF (appendFields rt h s vs).2 := by
  obtain ⟨h1, h2⟩ := hwf
  unfold appendFields
  by_cases hn : s.len + vs.length ≤ s.cap
  · simp only [hn, if_true]
    refine ⟨hn, ?_⟩
    by_cases hpos : 0 < (h.array s).length
    · have hlt := array_lt_of_pos h s hpos
      have e := array_set_self h { arr := s.arr, len := s.len + vs.length, cap := s.cap }
        (List.take s.len (h.array s) ++ vs ++ List.drop (s.len + vs.length) (h.array s)) hlt
      rw [e]
      simp
      omega
    · simp only []
      omega
  · simp only [hn, if_false]
    refine ⟨le_max_left _ _, ?_⟩
    have hr : (h.read s).length = s.len := read_length h s ⟨h1, h2⟩
    simp [Heap.array, List.getD_eq_getElem?_getD, hr]
    omega

theorem appendFields_read_parent (rt : Runtime) (h : Heap) (s : Slice) (vs : List Field)
    (hwf : h.WF s) : (appendFields rt h s vs).1.read s = h.read s := by
  obtain ⟨h1, h2⟩ := hwf
  by_cases hpos : 0 < (h.array s).length
  · have hlt := array_lt_of_pos h s hpos
    unfold appendFields
    by_cases hn : s.len + vs.length ≤ s.cap
    · simp only [hn, if_true]
      have e := array_set_self h s
        (List.take s.len (h.array s) ++ vs ++ List.drop (s.len + vs.length) (h.array s)) hlt
      have hl : (List.take s.len (h.array s)).length = s.len := by
        rw [List.length_take]; omega
      simp only [Heap.read]
      rw [e, List.append_assoc, List.take_append_eq_append_take, hl]
      simp
    · simp only [hn, if_false]
      simp [Heap.read, Heap.array, List.getD_eq_getElem?_getD, List.getElem?_append_left hlt]
  · have hs0 : s.len = 0 := by omega
    simp [Heap.read, hs0]

theorem fromContext_bare (c : Context) (hb : c.Bare) : FromContext c = Slice.nil := by
  induction c with
  | background => rfl
  | withFields p v _ => exact absurd hb (by simp [Context.Bare])
  | derived p ih => exact ih hb

/-- C2: in a heap where the scope's slice is well formed, `FromContext` of `WithContext(ctx, fs...)`
reads the fields of `ctx` followed by `fs`, in order, while `ctx` itself still reads as before;
the new slice is again well formed, so nested attaches accumulate in attach order. A scope to
which nothing was attached reads as the empty sequence. -/
theorem withContext_fromContext (rt : Runtime) (h : Heap) (ctx : Context) (fs : List Field)
    (hwf : h.WF (FromContext ctx)) :
    (WithContext rt h ctx fs).1.read (FromContext (WithContext rt h ctx fs).2)
        = h.read (FromContext ctx) ++ fs
      ∧ (WithContext rt h ctx fs).1.read (FromContext ctx) = h.read (FromContext ctx)
      ∧ (WithContext rt h ctx fs).1.WF (FromContext (WithContext rt h ctx fs).2)
      ∧ ∀ (g : Heap) (c : Context), c.Bare →
          g.read (FromContext c) = [] ∧ g.WF (FromContext c) := by
  refine ⟨appendFields_read rt h _ fs hwf, appendFields_read_parent rt h _ fs hwf,
    appendFields_wf rt h _ fs hwf, ?_⟩
  intro g c hb
  rw [fromContext_bare c hb]
  exact ⟨by simp [Heap.read, Slice.nil], by simp [Heap.WF, Slice.nil]⟩

theorem withContext_fromContext_witness :
    Heap.WF [] (FromContext Context.background) ∧
    ((WithContext goRuntime [] Context.background [Str (ascii "a") (ascii "1")]).1.read
        (FromContext (WithContext goRuntime [] Context.background
          [Str (ascii "a") (ascii "1")]).2)
        = Heap.read [] (FromContext Context.background) ++ [Str (ascii "a") (ascii "1")]
      ∧ (WithContext goRuntime [] Context.background [Str (ascii "a") (ascii "1")]).1.read
          (FromContext Context.background) = Heap.read [] (FromContext Context.background)
      ∧ (WithContext goRuntime [] Context.background [Str (ascii "a") (ascii "1")]).1.WF
          (FromContext (WithContext goRuntime [] Context.background
            [Str (ascii "a") (ascii "1")]).2)
      ∧ ∀ (g : Heap) (c : Context), c.Bare →
          g.read (FromContext c) = [] ∧ g.WF (FromContext c)) :=
  ⟨by simp [Heap.WF, FromContext, Slice.nil],
    withContext_fromContext goRuntime [] Context.background [Str (ascii "a") (ascii "1")]
      (by simp [Heap.WF, FromContext, Slice.nil])⟩

/-- C3 fails on the code: a parent built by three single-field attaches has length 3 and
capacity 4; the first child stores its field `x` in the spare cell, and creating the second
child stores `y` in the same cell, so the first child then reads `y` in place of `x`. -/
theorem sibling_attach_overwrites :
    (siblingParent.1.read (FromContext siblingParent.2)).map Field.Key
        = [ascii "k1", ascii "k2", ascii "k3"]
      ∧ (siblingFirst.1.read (FromContext siblingFirst.2)).map Field.Key
        = [ascii "k1", ascii "k2", ascii "k3", ascii "x"]
      ∧ (siblingSecond.1.read (FromContext siblingSecond.2)).map Field.Key
        = [ascii "k1", ascii "k2", ascii "k3", ascii "y"]
      ∧ (siblingSecond.1.read (FromContext siblingFirst.2)).map Field.Key
        = [ascii "k1", ascii "k2", ascii "k3", ascii "y"] := by
  decide

/-- C4 fails on the code: after one `Info` call in sorted mode on a scope whose fields were
attached in the order `zone`, `foo`, the scope reads `foo`, `zone`. -/
theorem sorted_log_reorders_carrier :
    (zoneFoo.1.read (FromContext zoneFoo.2)).map Field.Key = [ascii "zone", ascii "foo"]
      ∧ ((New { bareConfig with SortFields := true }).Info goRuntime
          { State.init with heap := zoneFoo.1 } 0 (fun _ => []) zoneFoo.2
          (ascii "hello") (Args.fresh [Str (ascii "id") (ascii "7")])).map
          (fun r => (r.2.output, (r.2.heap.read (FromContext zoneFoo.2)).map Field.Key))
        = some ([ascii "INFO hello  foo=bar id=7 zone=two\n"], [ascii "foo", ascii "zone"]) := by
  decide

/-! ## Sorting: `insertionSort` computes a stable sort by key -/

theorem stableSort_eq (f : List Field) :
    stableSort f = (List.insertionSort keyGE f.reverse).reverse := by
  have key : ∀ l : List Field, List.insertionSort keyGE l
      = List.foldr (fun x acc => List.orderedInsert keyGE x acc) [] l := by
    intro l
    induction l with
    | nil => rfl
    | cons a l ih => simp [List.insertionSort, ih]
  rw [key, List.foldr_reverse]
  rfl

theorem insertionSortInner_eq (pr : List Field) (x : Field) (q : List Field) :
    insertionSortInner (pr.reverse ++ x :: q) pr.length
      = some ((List.orderedInsert keyGE x pr).reverse ++ q) := by
  induction pr generalizing q with
  | nil => simp [insertionSortInner]
  | cons y pr ih =>
    have hx : (pr.reverse ++ y :: x :: q)[pr.length + 1]? = some x := by
      rw [List.getElem?_append_right (by simp)]; simp
    have hy : (pr.reverse ++ y :: x :: q)[pr.length]? = some y := by
      rw [List.getElem?_append_right (by simp)]; simp
    have hset : ((pr.reverse ++ y :: x :: q).set (pr.length + 1) y).set pr.length x
        = pr.reverse ++ x :: y :: q := by
      rw [List.set_append_right _ _ (by simp), List.set_append_right _ _ (by simp)]
      simp
    simp only [List.reverse_cons, List.append_assoc, List.singleton_append, List.length_cons,
      insertionSortInner, hx, hy, Option.bind_some, hset]
    by_cases hlt : x.Key < y.Key
    · have hr : ¬ keyGE x y := by unfold keyGE; exact not_not.mpr hlt
      simp [hlt, ih, List.orderedInsert, hr]
    · have hr : keyGE x y := hlt
      simp [hlt, List.orderedInsert, hr]

theorem stableSort_perm (f : List Field) : (stableSort f).Perm f := by
  rw [stableSort_eq]
  exact (List.reverse_perm _).trans ((List.perm_insertionSort keyGE _).trans (List.reverse_perm f))

theorem stableSort_length (f : List Field) : (stableSort f).length = f.length :=
  (stableSort_perm f).length_eq

theorem stableSort_snoc (f : List Field) (x : Field) :
    stableSort (f ++ [x])
      = (List.orderedInsert keyGE x (List.foldl (fun acc x => List.orderedInsert keyGE x acc)
          [] f)).reverse := by
  simp [stableSort, List.foldl_append]

theorem insertionSort_loop (f : List Field) (n i : Nat) (hi : i ≤ f.length)
    (hn : f.length ≤ i + n) :
    loopN (fun s : List Field × Nat => some (decide (s.2 < s.1.length)))
      (fun s => (insertionSortInner s.1 s.2).map fun g => (g, s.2 + 1)) n
      (stableSort (f.take i) ++ f.drop i, i) = some (stableSort f, f.length) := by
  induction n generalizing i with
  | zero =>
    have hif : i = f.length := by omega
    subst hif
    simp [loopN, stableSort_length]
  | succ n ih =>
    by_cases hlt : i < f.length
    · have hlen : (stableSort (f.take i) ++ f.drop i).length = f.length := by
        simp [stableSort_length]; omega
      have hdrop : f.drop i = f[i] :: f.drop (i + 1) := List.drop_eq_getElem_cons hlt
      have htake : f.take (i + 1) = f.take i ++ [f[i]] := by
        rw [List.take_succ, List.getElem?_eq_getElem hlt]; rfl
      have hprl : (List.foldl (fun acc x => List.orderedInsert keyGE x acc) [] (f.take i)).length
          = i := by
        have := stableSort_length (f.take i)
        simp [stableSort] at this
        omega
      have hinner := insertionSortInner_eq
        (List.foldl (fun acc x => List.orderedInsert keyGE x acc) [] (f.take i)) f[i]
        (f.drop (i + 1))
      rw [hprl] at hinner
      have hstep : insertionSortInner (stableSort (f.take i) ++ f.drop i) i
          = some (stableSort (f.take (i + 1)) ++ f.drop (i + 1)) := by
        rw [hdrop, htake, stableSort_snoc]
        exact hinner
      have := ih (i + 1) hlt (by omega)
      simp only [loopN, hlen, hlt, decide_True, Option.some_bind, if_true, hstep, Option.map_some']
      exact this
    · have hif : i = f.length := by omega
      subst hif
      simp [loopN, stableSort_length]

theorem insertionSort_eq (f : List Field) : insertionSort f = some (stableSort f) := by
  unfold insertionSort
  cases f with
  | nil => simp [loopN, stableSort]
  | cons x xs =>
    have := insertionSort_loop (x :: xs) (x :: xs).length 1 (by simp) (by simp)
    have h1 : stableSort (List.take 1 (x :: xs)) ++ List.drop 1 (x :: xs) = x :: xs := by
      simp [stableSort]
    rw [h1] at this
    rw [this]
    rfl

theorem sortFields_eq (f : List Field) : sortFields f = some (stableSort f) := by
  unfold sortFields
  by_cases h : f.length > 1
  · simp [h, insertionSort_eq]
  · rw [if_neg h]
    match f, h with
    | [], _ => rfl
    | [x], _ => rfl
    | _ :: _ :: _, h => simp at h

/-! ## The loops of `printFieldsSorted` -/

theorem printFieldsFrom_off (l : Logger) (lev : Level) (off : Nat) (fs : List Field) (i : Nat)
    (buf : Bytes) :
    l.printFieldsFrom lev off fs i buf = l.printFieldsFrom lev 0 fs (i + off) buf := by
  induction fs generalizing i buf with
  | nil => rfl
  | cons f fs ih =>
    simp only [Logger.printFieldsFrom, Nat.add_zero]
    rw [ih]
    have e : i + 1 + off = i + off + 1 := by omega
    rw [e]

theorem printFieldsFrom_append (l : Logger) (lev : Level) (fs gs : List Field) (i : Nat)
    (buf : Bytes) :
    l.printFieldsFrom lev 0 (fs ++ gs) i buf
      = l.printFieldsFrom lev 0 gs (i + fs.length) (l.printFieldsFrom lev 0 fs i buf) := by
  induction fs generalizing i buf with
  | nil => rfl
  | cons f fs ih =>
    have e : i + (fs.length + 1) = i + 1 + fs.length := by omega
    show l.printFieldsFrom lev 0 (fs ++ gs) (i + 1) _ = _
    simp only [Logger.printFieldsFrom, List.length_cons]
    rw [ih, e]

theorem restA_loop (l : Logger) (lev : Level) (a : List Field) (n i j : Nat) (buf : Bytes)
    (hn : a.length ≤ i + n) :
    loopN (fun s : MergeState => some (decide (s.i < a.length))) (l.restStepA lev a) n
        { i := i, j := j, buf := buf }
      = some { i := max i a.length, j := j,
               buf := l.printFieldsFrom lev 0 (a.drop i) (i + j) buf } := by
  induction n generalizing i buf with
  | zero =>
    have h1 : ¬ i < a.length := by omega
    have h2 : max i a.length = i := by omega
    have h3 : a.drop i = [] := List.drop_eq_nil_of_le (by omega)
    simp [loopN, h1, h2, h3, Logger.printFieldsFrom]
  | succ n ih =>
    by_cases hlt : i < a.length
    · have hdrop : a.drop i = a[i] :: a.drop (i + 1) := List.drop_eq_getElem_cons hlt
      have hget : a[i]? = some a[i] := List.getElem?_eq_getElem hlt
      have hmax : max i a.length = max (i + 1) a.length := by omega
      have e : i + 1 + j = i + j + 1 := by omega
      simp only [loopN, hlt, decide_True, Option.some_bind, if_true, Logger.restStepA, hget,
        Option.map_some', hdrop, Logger.printFieldsFrom, Nat.add_zero, hmax]
      rw [ih (i + 1) _ (by omega), e]
    · have h2 : max i a.length = i := by omega
      have h3 : a.drop i = [] := List.drop_eq_nil_of_le (by omega)
      simp [loopN, hlt, h2, h3, Logger.printFieldsFrom]

theorem restB_loop (l : Logger) (lev : Level) (b : List Field) (n i j : Nat) (buf : Bytes)
    (hn : b.length ≤ j + n) :
    loopN (fun s : MergeState => some (decide (s.j < b.length))) (l.restStepB lev b) n
        { i := i, j := j, buf := buf }
      = some { i := i, j := max j b.length,
               buf := l.printFieldsFrom lev 0 (b.drop j) (i + j) buf } := by
  induction n generalizing j buf with
  | zero =>
    have h1 : ¬ j < b.length := by omega
    have h2 : max j b.length = j := by omega
    have h3 : b.drop j = [] := List.drop_eq_nil_of_le (by omega)
    simp [loopN, h1, h2, h3, Logger.printFieldsFrom]
  | succ n ih =>
    by_cases hlt : j < b.length
    · have hdrop : b.drop j = b[j] :: b.drop (j + 1) := List.drop_eq_getElem_cons hlt
      have hget : b[j]? = some b[j] := List.getElem?_eq_getElem hlt
      have hmax : max j b.length = max (j + 1) b.length := by omega
      have e : i + (j + 1) = i + j + 1 := by omega
      simp only [loopN, hlt, decide_True, Option.some_bind, if_true, Logger.restStepB, hget,
        Option.map_some', hdrop, Logger.printFieldsFrom, Nat.add_zero, hmax]
      rw [ih (j + 1) _ (by omega), e]
    · have h2 : max j b.length = j := by omega
      have h3 : b.drop j = [] := List.drop_eq_nil_of_le (by omega)
      simp [loopN, hlt, h2, h3, Logger.printFieldsFrom]

theorem rest_loops (l : Logger) (lev : Level) (a b : List Field) (i j : Nat) (buf : Bytes)
    (hi : i ≤ a.length) :
    ((loopN (fun s : MergeState => some (decide (s.i < a.length))) (l.restStepA lev a) a.length
        { i := i, j := j, buf := buf }).bind fun s2 =>
      (loopN (fun s : MergeState => some (decide (s.j < b.length))) (l.restStepB lev b) b.length
        s2).map fun s3 => s3.buf)
      = some (l.printFieldsFrom lev 0 (a.drop i ++ b.drop j) (i + j) buf) := by
  rw [restA_loop l lev a a.length i j buf (by omega)]
  simp only [Option.some_bind]
  rw [restB_loop l lev b b.length _ j _ (by omega)]
  simp only [Option.map_some', printFieldsFrom_append, List.length_drop]
  have h1 : max i a.length = a.length := by omega
  have h2 : i + j + (a.length - i) = a.length + j := by omega
  rw [h1, h2]

theorem merge_loops (l : Logger) (lev : Level) (a b : List Field) (n i j : Nat) (buf : Bytes)
    (hi : i ≤ a.length) (hj : j ≤ b.length) (hn : (a.length - i) + (b.length - j) ≤ n) :
    ((loopN (fun s : MergeState => some (decide (s.i < a.length) && decide (s.j < b.length)))
        (l.mergeStep lev a b) n { i := i, j := j, buf := buf }).bind fun s1 =>
      (loopN (fun s : MergeState => some (decide (s.i < a.length))) (l.restStepA lev a) a.length
        s1).bind fun s2 =>
      (loopN (fun s : MergeState => some (decide (s.j < b.length))) (l.restStepB lev b) b.length
        s2).map fun s3 => s3.buf)
      = some (l.printFieldsFrom lev 0
          (List.merge (a.drop i) (b.drop j) (fun x y => decide (x.Key < y.Key))) (i + j) buf) := by
  have hexit : ∀ (m : Nat) (i j : Nat) (buf : Bytes), i ≤ a.length →
      ¬ (i < a.length ∧ j < b.length) →
      ((loopN (fun s : MergeState => some (decide (s.i < a.length) && decide (s.j < b.length)))
        (l.mergeStep lev a b) m { i := i, j := j, buf := buf }).bind fun s1 =>
      (loopN (fun s : MergeState => some (decide (s.i < a.length))) (l.restStepA lev a) a.length
        s1).bind fun s2 =>
      (loopN (fun s : MergeState => some (decide (s.j < b.length))) (l.restStepB lev b) b.length
        s2).map fun s3 => s3.buf)
      = some (l.printFieldsFrom lev 0
          (List.merge (a.drop i) (b.drop j) (fun x y => decide (x.Key < y.Key))) (i + j) buf) := by
    intro m i j buf hi hc
    have hcond : (decide (i < a.length) && decide (j < b.length)) = false := by
      simpa using hc
    have hloop : loopN (fun s : MergeState => some (decide (s.i < a.length) &&
        decide (s.j < b.length))) (l.mergeStep lev a b) m { i := i, j := j, buf := buf }
        = some { i := i, j := j, buf := buf } := by
      cases m <;> simp [loopN, hcond]
    rw [hloop, Option.some_bind, rest_loops l lev a b i j buf hi]
    by_cases h1 : i < a.length
    · have h2 : b.drop j = [] := List.drop_eq_nil_of_le (by
        have := fun h => hc ⟨h1, h⟩
        omega)
      simp [h2]
    · have h2 : a.drop i = [] := List.drop_eq_nil_of_le (by omega)
      simp [h2]
  induction n generalizing i j buf with
  | zero => exact hexit 0 i j buf hi (by omega)
  | succ n ih =>
    by_cases hc : i < a.length ∧ j < b.length
    · obtain ⟨h1, h2⟩ := hc
      have hda : a.drop i = a[i] :: a.drop (i + 1) := List.drop_eq_getElem_cons h1
      have hdb : b.drop j = b[j] :: b.drop (j + 1) := List.drop_eq_getElem_cons h2
      have hga : a[i]? = some a[i] := List.getElem?_eq_getElem h1
      have hgb : b[j]? = some b[j] := List.getElem?_eq_getElem h2
      by_cases hk : a[i].Key < b[j].Key
      · have hstep : l.mergeStep lev a b { i := i, j := j, buf := buf }
            = some { i := i + 1, j := j,
                     buf := l.printField buf lev a[i] (decide (i + j > 0)) } := by
          simp [Logger.mergeStep, hga, hgb, hk]
        have := ih (i + 1) j (l.printField buf lev a[i] (decide (i + j > 0))) h1 hj (by omega)
        simp only [loopN, h1, h2, decide_True, Bool.and_self, Option.some_bind, if_true, hstep]
        have hm : List.merge (a.drop i) (b.drop j) (fun x y => decide (x.Key < y.Key))
            = a[i] :: List.merge (a.drop (i + 1)) (b.drop j)
                (fun x y => decide (x.Key < y.Key)) := by
          conv_lhs => rw [hda, hdb]
          rw [List.cons_merge_cons_pos _ _ _ (by simpa using hk), ← hdb]
        have e : i + 1 + j = i + j + 1 := by omega
        rw [this, hm, e]
        simp only [Logger.printFieldsFrom, Nat.add_zero]
      · have hstep : l.mergeStep lev a b { i := i, j := j, buf := buf }
            = some { i := i, j := j + 1,
                     buf := l.printField buf lev b[j] (decide (i + j > 0)) } := by
          simp [Logger.mergeStep, hga, hgb, hk]
        have := ih i (j + 1) (l.printField buf lev b[j] (decide (i + j > 0))) hi h2 (by omega)
        simp only [loopN, h1, h2, decide_True, Bool.and_self, Option.some_bind, if_true, hstep]
        have hm : List.merge (a.drop i) (b.drop j) (fun x y => decide (x.Key < y.Key))
            = b[j] :: List.merge (a.drop i) (b.drop (j + 1))
                (fun x y => decide (x.Key < y.Key)) := by
          conv_lhs => rw [hda, hdb]
          rw [List.cons_merge_cons_neg _ _ _ (by simpa using hk), ← hda]
        have e : i + (j + 1) = i + j + 1 := by omega
        rw [this, hm, e]
        simp only [Logger.printFieldsFrom, Nat.add_zero]
    · exact hexit (n + 1) i j buf hi hc

theorem printMerged_eq (l : Logger) (lev : Level) (a b : List Field) (buf : Bytes) :
    l.printMerged lev a b buf
      = some (l.printFieldsFrom lev 0
          (List.merge a b (fun x y => decide (x.Key < y.Key))) 0 buf) := by
  have := merge_loops l lev a b (a.length + b.length) 0 0 buf (by omega) (by omega) (by omega)
  simpa [Logger.printMerged] using this

theorem read_write_same (h : Heap) (s : Slice) (vs : List Field)
    (hlen : vs.length = (h.read s).length) : (h.write s vs).read s = vs := by
  by_cases hs : s.arr < h.length
  · simp only [Heap.read, Heap.write, array_set_self _ _ _ hs] at hlen ⊢
    rw [List.length_take] at hlen
    by_cases hle : s.len ≤ (h.array s).length
    · rw [List.take_append_of_le_length (by omega), List.take_of_length_le (by omega)]
    · rw [List.drop_eq_nil_of_le (by omega), List.append_nil,
        List.take_of_length_le (by omega)]
  · have ha : h.array s = [] := by
      simp [Heap.array, List.getD_eq_getElem?_getD, List.getElem?_eq_none (not_lt.mp hs)]
    have hv : vs = [] := by
      apply List.eq_nil_of_length_eq_zero
      rw [hlen]; simp [Heap.read, ha]
    subst hv
    have hw : Heap.write h s [] = h := by
      unfold Heap.write
      exact List.set_eq_of_length_le (not_lt.mp hs)
    rw [hw]; simp [Heap.read, ha]

theorem printFieldsSorted_spread (l : Logger) (h : Heap) (ctx : Context) (buf : Bytes)
    (lev : Level) (fields : Args) :
    l.printFieldsSorted h ctx buf lev fields
      = some ((fields.store (h.write (FromContext ctx) (stableSort (h.read (FromContext ctx))))
            (stableSort (fields.read
              (h.write (FromContext ctx) (stableSort (h.read (FromContext ctx))))))).1,
          l.printFieldsFrom lev 0
            (List.merge
              ((fields.store (h.write (FromContext ctx) (stableSort (h.read (FromContext ctx))))
                (stableSort (fields.read (h.write (FromContext ctx)
                  (stableSort (h.read (FromContext ctx))))))).1.read (FromContext ctx))
              ((fields.store (h.write (FromContext ctx) (stableSort (h.read (FromContext ctx))))
                (stableSort (fields.read (h.write (FromContext ctx)
                  (stableSort (h.read (FromContext ctx))))))).2.read
                (fields.store (h.write (FromContext ctx) (stableSort (h.read (FromContext ctx))))
                  (stableSort (fields.read (h.write (FromContext ctx)
                    (stableSort (h.read (FromContext ctx))))))).1)
              (fun x y => decide (x.Key < y.Key))) 0 buf) := by
  simp [Logger.printFieldsSorted, sortFields_eq, printMerged_eq]

theorem printFieldsSorted_eq (l : Logger) (h : Heap) (ctx : Context) (buf : Bytes)
    (lev : Level) (fields : List Field) :
    l.printFieldsSorted h ctx buf lev (Args.fresh fields)
      = some (h.write (FromContext ctx) (stableSort (h.read (FromContext ctx))),
          l.printFieldsFrom lev 0 (emitted (h.read (FromContext ctx)) fields) 0 buf) := by
  rw [printFieldsSorted_spread]
  simp only [Args.store, Args.read, emitted]
  rw [read_write_same h (FromContext ctx) _ (stableSort_length _)]

theorem stableSort_sorted (f : List Field) :
    (stableSort f).Pairwise (fun x y => x.Key ≤ y.Key) := by
  rw [stableSort_eq, List.pairwise_reverse]
  have h := List.sorted_insertionSort keyGE f.reverse
  exact List.Pairwise.imp (fun {a b} (hab : keyGE a b) => not_lt.mp hab) h

theorem stableSort_filter (f : List Field) (k : Bytes) :
    (stableSort f).filter (fun x => decide (x.Key = k))
      = f.filter (fun x => decide (x.Key = k)) := by
  have hsub : List.Sublist (f.filter (fun x => decide (x.Key = k))).reverse f.reverse :=
    (List.filter_sublist f).reverse
  have hpw : ((f.filter (fun x => decide (x.Key = k))).reverse).Pairwise keyGE := by
    apply List.pairwise_of_forall_mem_list
    intro a ha b hb
    simp only [List.mem_reverse, List.mem_filter, decide_eq_true_eq] at ha hb
    unfold keyGE
    rw [ha.2, hb.2]
    exact lt_irrefl k
  have h1 := List.sublist_insertionSort hpw hsub
  have h2 : List.Sublist (f.filter (fun x => decide (x.Key = k))) (stableSort f) := by
    rw [stableSort_eq]
    simpa using h1.reverse
  have h3 := h2.filter (fun x => decide (x.Key = k))
  rw [List.filter_filter] at h3
  simp only [Bool.and_self] at h3
  have h4 : ((stableSort f).filter (fun x => decide (x.Key = k))).length
      = (f.filter (fun x => decide (x.Key = k))).length :=
    ((stableSort_perm f).filter _).length_eq
  exact (h3.eq_of_length h4.symm).symm

theorem merge_sorted (a b : List Field) (ha : a.Pairwise (fun x y => x.Key ≤ y.Key))
    (hb : b.Pairwise (fun x y => x.Key ≤ y.Key)) :
    (List.merge a b (fun x y => decide (x.Key < y.Key))).Pairwise
      (fun x y => x.Key ≤ y.Key) := by
  induction a generalizing b with
  | nil => simpa using hb
  | cons x a iha =>
    induction b with
    | nil => simpa using ha
    | cons y b ihb =>
      by_cases hk : x.Key < y.Key
      · rw [List.cons_merge_cons_pos _ _ _ (by simpa using hk)]
        refine List.Pairwise.cons ?_ (iha (y :: b) (List.Pairwise.of_cons ha) hb)
        intro z hz
        rcases List.mem_merge.mp hz with hz | hz
        · exact List.rel_of_pairwise_cons ha hz
        · rcases List.mem_cons.mp hz with rfl | hz
          · exact le_of_lt hk
          · exact le_trans (le_of_lt hk) (List.rel_of_pairwise_cons hb hz)
      · rw [List.cons_merge_cons_neg _ _ _ (by simpa using hk)]
        refine List.Pairwise.cons ?_ (ihb (List.Pairwise.of_cons hb))
        intro z hz
        rcases List.mem_merge.mp hz with hz | hz
        · rcases List.mem_cons.mp hz with rfl | hz
          · exact not_lt.mp hk
          · exact le_trans (not_lt.mp hk) (List.rel_of_pairwise_cons ha hz)
        · exact List.rel_of_pairwise_cons hb hz

theorem filter_key_nil (k : Bytes) (y : Field) (b : List Field) (hky : k < y.Key)
    (hb : (y :: b).Pairwise (fun x y => x.Key ≤ y.Key)) :
    (y :: b).filter (fun x => decide (x.Key = k)) = [] := by
  rw [List.filter_eq_nil_iff]
  intro z hz
  have hz2 : y.Key ≤ z.Key := by
    rcases List.mem_cons.mp hz with rfl | hz
    · exact le_refl _
    · exact List.rel_of_pairwise_cons hb hz
  have : k < z.Key := lt_of_lt_of_le hky hz2
  simpa using (ne_of_lt this).symm

theorem merge_filter (a b : List Field) (k : Bytes)
    (ha : a.Pairwise (fun x y => x.Key ≤ y.Key))
    (hb : b.Pairwise (fun x y => x.Key ≤ y.Key)) :
    (List.merge a b (fun x y => decide (x.Key < y.Key))).filter (fun x => decide (x.Key = k))
      = b.filter (fun x => decide (x.Key = k)) ++ a.filter (fun x => decide (x.Key = k)) := by
  induction a generalizing b with
  | nil => simp
  | cons x a iha =>
    induction b with
    | nil => simp
    | cons y b ihb =>
      by_cases hk : x.Key < y.Key
      · rw [List.cons_merge_cons_pos _ _ _ (by simpa using hk)]
        have ih := iha (y :: b) (List.Pairwise.of_cons ha) hb
        by_cases hx : x.Key = k
        · have hnil := filter_key_nil k y b (hx ▸ hk) hb
          rw [List.filter_cons_of_pos (by simpa using hx), ih, hnil,
            List.filter_cons_of_pos (by simpa using hx)]
          simp
        · rw [List.filter_cons_of_neg (by simpa using hx), ih,
            List.filter_cons_of_neg (l := a) (by simpa using hx)]
      · rw [List.cons_merge_cons_neg _ _ _ (by simpa using hk)]
        have ih := ihb (List.Pairwise.of_cons hb)
        by_cases hy : y.Key = k
        · rw [List.filter_cons_of_pos (by simpa using hy), ih,
            List.filter_cons_of_pos (l := b) (by simpa using hy)]
          simp
        · rw [List.filter_cons_of_neg (by simpa using hy), ih,
            List.filter_cons_of_neg (l := b) (by simpa using hy)]

theorem emitted_perm (a b : List Field) : (emitted a b).Perm (b ++ a) := by
  unfold emitted
  refine (List.merge_perm_append _).trans ?_
  exact List.perm_append_comm.trans ((stableSort_perm b).append (stableSort_perm a))

theorem emitted_sorted (a b : List Field) :
    (emitted a b).Pairwise (fun x y => x.Key ≤ y.Key) :=
  merge_sorted _ _ (stableSort_sorted a) (stableSort_sorted b)

theorem emitted_filter (a b : List Field) (k : Bytes) :
    (emitted a b).filter (fun x => decide (x.Key = k))
      = b.filter (fun x => decide (x.Key = k)) ++ a.filter (fun x => decide (x.Key = k)) := by
  unfold emitted
  rw [merge_filter _ _ k (stableSort_sorted a) (stableSort_sorted b), stableSort_filter,
    stableSort_filter]

/-! ## Level filtering -/

theorem level_cases (x : Int) (h0 : 0 ≤ x) (h6 : x ≤ 6) :
    x = 0 ∨ x = 1 ∨ x = 2 ∨ x = 3 ∨ x = 4 ∨ x = 5 ∨ x = 6 := by
  omega

theorem levelName_some (l : Logger) (lev : Level) (h0 : LevelTrace ≤ lev)
    (h6 : lev ≤ LevelFatal) : ∃ name, l.levelName lev = some name := by
  have := level_cases lev h0 h6
  rcases this with h | h | h | h | h | h | h <;> subst h <;>
    simp [Logger.levelName, LevelTrace, LevelDebug, LevelInfo, LevelWarn, LevelError,
      LevelPanic, LevelFatal]

theorem printFields_some (l : Logger) (h : Heap) (ctx : Context) (buf : Bytes) (lev : Level)
    (fields : Args) : ∃ r, l.printFields h ctx buf lev fields = some r := by
  unfold Logger.printFields
  by_cases hs : l.cfg.SortFields
  · exact ⟨_, by rw [if_pos hs]; exact printFieldsSorted_spread l h ctx buf lev fields⟩
  · exact ⟨_, by rw [if_neg hs]⟩

theorem printStackTrace_newline (l : Logger) (stack : Int → Bytes) (buf : Bytes) (lev : Level) :
    ∃ body, l.printStackTrace stack (buf ++ [10]) lev = body ++ [10] := by
  unfold Logger.printStackTrace
  by_cases h : lev ≥ l.cfg.StackTraceLevel
  · exact ⟨buf ++ [10] ++ stack l.cfg.StackTraceSkip, by rw [if_pos h]⟩
  · exact ⟨buf, by rw [if_neg h]⟩

theorem print_active (rt : Runtime) (l : Logger) (s : State) (now : Int) (stack : Int → Bytes)
    (ctx : Context) (lev : Level) (msg : Bytes) (fields : Args)
    (hact : l.cfg.Level ≤ lev) (h0 : LevelTrace ≤ lev) (h6 : lev ≤ LevelFatal) :
    WritesOnce s (l.print rt s now stack ctx lev msg fields) := by
  obtain ⟨name, hname⟩ := levelName_some l lev h0 h6
  obtain ⟨r, hr⟩ := printFields_some l s.heap ctx
    (l.printMessage (l.writeColorized (l.printTime rt now []).1 lev name ++ [32]) msg
      (decide (fields.len > 0))) lev fields
  obtain ⟨body, hbody⟩ := printStackTrace_newline l stack r.2 lev
  refine ⟨{ l with timeCache := (l.printTime rt now []).2 },
    { s with heap := r.1, output := s.output ++ [body ++ [10]] }, body, ?_, rfl, rfl⟩
  unfold Logger.print
  rw [if_neg (not_lt.mpr hact)]
  simp only [Logger.printLevel, hname, Option.map_some', Option.some_bind, hr, hbody]

theorem print_inactive (rt : Runtime) (l : Logger) (s : State) (now : Int)
    (stack : Int → Bytes) (ctx : Context) (lev : Level) (msg : Bytes) (fields : Args)
    (h : lev < l.cfg.Level) : l.print rt s now stack ctx lev msg fields = some (l, s) := by
  unfold Logger.print
  rw [if_pos h]

/-- C5: each entry point of the levels Trace to Panic writes exactly once when its level is at
least the configured minimum level, and leaves logger, heap and output untouched when its level
is below the minimum. -/
theorem entry_points_filter (rt : Runtime) (l : Logger) (s : State) (now : Int)
    (stack : Int → Bytes) (ctx : Context) (msg : Bytes) (fields : Args)
    (hM : LevelTrace ≤ l.cfg.Level) :
    FiltersAt l s LevelTrace (l.Trace rt s now stack ctx msg fields)
      ∧ FiltersAt l s LevelDebug (l.Debug rt s now stack ctx msg fields)
      ∧ FiltersAt l s LevelInfo (l.Info rt s now stack ctx msg fields)
      ∧ FiltersAt l s LevelWarn (l.Warn rt s now stack ctx msg fields)
      ∧ FiltersAt l s LevelError (l.Error rt s now stack ctx msg fields)
      ∧ FiltersAt l s LevelPanic (l.Panic rt s now stack ctx msg fields) := by
  refine ⟨⟨?_, ?_⟩, ⟨?_, ?_⟩, ⟨?_, ?_⟩, ⟨?_, ?_⟩, ⟨?_, ?_⟩, ⟨?_, ?_⟩⟩
  · intro h
    have he : l.cfg.Level = LevelTrace := le_antisymm h hM
    unfold Logger.Trace
    rw [if_pos he]
    exact print_active rt l s now stack ctx LevelTrace msg fields h (le_refl _) (by decide)
  · intro h
    unfold Logger.Trace
    rw [if_neg (ne_of_gt h)]
  · intro h
    unfold Logger.Debug
    rw [if_pos h]
    exact print_active rt l s now stack ctx LevelDebug msg fields h (by decide) (by decide)
  · intro h
    unfold Logger.Debug
    rw [if_neg (not_le.mpr h)]
  · intro h
    unfold Logger.Info
    rw [if_pos h]
    exact print_active rt l s now stack ctx LevelInfo msg fields h (by decide) (by decide)
  · intro h
    unfold Logger.Info
    rw [if_neg (not_le.mpr h)]
  · intro h
    unfold Logger.Warn
    rw [if_pos h]
    exact print_active rt l s now stack ctx LevelWarn msg fields h (by decide) (by decide)
  · intro h
    unfold Logger.Warn
    rw [if_neg (not_le.mpr h)]
  · intro h
    unfold Logger.Error
    rw [if_pos h]
    exact print_active rt l s now stack ctx LevelError msg fields h (by decide) (by decide)
  · intro h
    unfold Logger.Error
    rw [if_neg (not_le.mpr h)]
  · intro h
    unfold Logger.Panic
    rw [if_pos h]
    exact print_active rt l s now stack ctx LevelPanic msg fields h (by decide) (by decide)
  · intro h
    unfold Logger.Panic
    rw [if_neg (not_le.mpr h)]

theorem entry_points_filter_witness :
    LevelTrace ≤ (New bareConfig).cfg.Level ∧
    (FiltersAt (New bareConfig) State.init LevelTrace
        ((New bareConfig).Trace goRuntime State.init 0 (fun _ => []) Context.background
          (ascii "hello") (Args.fresh []))
      ∧ FiltersAt (New bareConfig) State.init LevelDebug
        ((New bareConfig).Debug goRuntime State.init 0 (fun _ => []) Context.background
          (ascii "hello") (Args.fresh []))
      ∧ FiltersAt (New bareConfig) State.init LevelInfo
        ((New bareConfig).Info goRuntime State.init 0 (fun _ => []) Context.background
          (ascii "hello") (Args.fresh []))
      ∧ FiltersAt (New bareConfig) State.init LevelWarn
        ((New bareConfig).Warn goRuntime State.init 0 (fun _ => []) Context.background
          (ascii "hello") (Args.fresh []))
      ∧ FiltersAt (New bareConfig) State.init LevelError
        ((New bareConfig).Error goRuntime State.init 0 (fun _ => []) Context.background
          (ascii "hello") (Args.fresh []))
      ∧ FiltersAt (New bareConfig) State.init LevelPanic
        ((New bareConfig).Panic goRuntime State.init 0 (fun _ => []) Context.background
          (ascii "hello") (Args.fresh []))) :=
  ⟨by decide,
    entry_points_filter goRuntime (New bareConfig) State.init 0 (fun _ => [])
      Context.background (ascii "hello") (Args.fresh []) (by decide)⟩

/-- When the configured minimum level is at most `LevelFatal`, `Fatal` returns after exactly
one write of a newline-terminated record, with the process ended through `os.Exit(1)`. -/
theorem fatal_writes_when_enabled (rt : Runtime) (l : Logger) (s : State) (now : Int)
    (stack : Int → Bytes) (ctx : Context) (msg : Bytes) (fields : Args)
    (hM : l.cfg.Level ≤ LevelFatal) :
    ∃ (l' : Logger) (s' : State) (body : Bytes),
      l.Fatal rt s now stack ctx msg fields = some (l', s')
        ∧ s'.output = s.output ++ [body ++ [10]] ∧ s'.exited = some 1 := by
  obtain ⟨l', s', body, hp, hout, _⟩ :=
    print_active rt l s now stack ctx LevelFatal msg fields hM (by decide) (le_refl _)
  refine ⟨l', { s' with exited := some 1 }, body, ?_, hout, rfl⟩
  unfold Logger.Fatal
  rw [hp]
  rfl

/-- C6 fails on the code: when the configured minimum level is above `LevelFatal` (`Level` is
an `int`, so `Config{Level: 7}` is a configuration), `print` returns at its guard
`lev < l.cfg.Level` before anything is written and `Fatal` goes on to `os.Exit(1)`: the logger,
the heap and the output are as before the call, and the process has ended with status 1. -/
theorem fatal_above_minimum_silent (rt : Runtime) (l : Logger) (s : State) (now : Int)
    (stack : Int → Bytes) (ctx : Context) (msg : Bytes) (fields : Args)
    (hM : LevelFatal < l.cfg.Level) :
    l.Fatal rt s now stack ctx msg fields
      = some (l, { heap := s.heap, output := s.output, exited := some 1 }) := by
  unfold Logger.Fatal
  rw [print_inactive rt l s now stack ctx LevelFatal msg fields hM]
  rfl

theorem fatal_above_minimum_silent_witness :
    LevelFatal < (New { bareConfig with Level := 7 }).cfg.Level ∧
    (New { bareConfig with Level := 7 }).Fatal goRuntime State.init 0 (fun _ => [])
        Context.background (ascii "hello") (Args.fresh [])
      = some (New { bareConfig with Level := 7 },
          { heap := State.init.heap, output := State.init.output, exited := some 1 }) :=
  ⟨by decide,
    fatal_above_minimum_silent goRuntime (New { bareConfig with Level := 7 }) State.init 0
      (fun _ => []) Context.background (ascii "hello") (Args.fresh []) (by decide)⟩

/-! ## Field order in sorted mode, message padding -/

/-- C1, as stated, fails: with explicit field a=1 and carrier field a=2 the sorted field section
is not `a=2 a=1`. -/
theorem tie_carrier_first_refuted :
    ((New { bareConfig with SortFields := true }).printFieldsSorted
        (WithContext goRuntime [] Context.background [Str (ascii "a") (ascii "2")]).1
        (WithContext goRuntime [] Context.background [Str (ascii "a") (ascii "2")]).2
        [] LevelInfo (Args.fresh [Str (ascii "a") (ascii "1")])).map Prod.snd
      ≠ some (ascii "a=2 a=1") := by
  decide

/-- C1, amended: in sorted mode, with the explicit fields written out at the call, the fields
are printed in the order `emitted`, in which the fields of any one key are the explicit fields
of that key (in call order) followed by the carrier fields of that key (in attach order); so an
explicit field comes before a carrier field of the same key, and explicit a=1 with carrier a=2
renders `a=1 a=2`. -/
theorem tie_explicit_first :
    (∀ (l : Logger) (h : Heap) (ctx : Context) (buf : Bytes) (lev : Level)
        (fields : List Field) (k : Bytes),
        (l.printFieldsSorted h ctx buf lev (Args.fresh fields)).map Prod.snd
            = some (l.printFieldsFrom lev 0 (emitted (h.read (FromContext ctx)) fields) 0 buf)
          ∧ (emitted (h.read (FromContext ctx)) fields).filter (fun x => decide (x.Key = k))
            = fields.filter (fun x => decide (x.Key = k))
              ++ (h.read (FromContext ctx)).filter (fun x => decide (x.Key = k)))
      ∧ ((New { bareConfig with SortFields := true }).printFieldsSorted
          (WithContext goRuntime [] Context.background [Str (ascii "a") (ascii "2")]).1
          (WithContext goRuntime [] Context.background [Str (ascii "a") (ascii "2")]).2
          [] LevelInfo (Args.fresh [Str (ascii "a") (ascii "1")])).map Prod.snd
        = some (ascii "a=1 a=2") := by
  refine ⟨?_, by decide⟩
  intro l h ctx buf lev fields k
  exact ⟨by rw [printFieldsSorted_eq]; rfl, emitted_filter _ _ k⟩

/-- With the explicit fields written out at the call, the sorted field section is the fields of
the list `emitted` printed one after the other; that list is a rearrangement of the explicit
fields together with the carrier fields (each field exactly once) and its keys are in
non-decreasing byte-lexicographic order. Explicit fields b=1 and a=2 render `a=2 b=1` in either
call order. -/
theorem sorted_section_of_fresh_fields :
    (∀ (l : Logger) (h : Heap) (ctx : Context) (buf : Bytes) (lev : Level)
        (fields : List Field),
        (l.printFieldsSorted h ctx buf lev (Args.fresh fields)).map Prod.snd
            = some (l.printFieldsFrom lev 0 (emitted (h.read (FromContext ctx)) fields) 0 buf)
          ∧ (emitted (h.read (FromContext ctx)) fields).Perm
              (fields ++ h.read (FromContext ctx))
          ∧ (emitted (h.read (FromContext ctx)) fields).Pairwise
              (fun x y => x.Key ≤ y.Key))
      ∧ ((New { bareConfig with SortFields := true }).printFieldsSorted [] Context.background
          [] LevelInfo
          (Args.fresh [Str (ascii "b") (ascii "1"), Str (ascii "a") (ascii "2")])).map Prod.snd
        = some (ascii "a=2 b=1")
      ∧ ((New { bareConfig with SortFields := true }).printFieldsSorted [] Context.background
          [] LevelInfo
          (Args.fresh [Str (ascii "a") (ascii "2"), Str (ascii "b") (ascii "1")])).map Prod.snd
        = some (ascii "a=2 b=1") := by
  refine ⟨?_, by decide, by decide⟩
  intro l h ctx buf lev fields
  exact ⟨by rw [printFieldsSorted_eq]; rfl, emitted_perm _ _, emitted_sorted _ _⟩

/-- C10 fails on the code: a child scope holds the fields `m`, `z`, `a`, `b` in the array its
parent uses for `m`, `z`, `a`; in sorted mode `Info(child, "hello", FromContext(parent)...)`
sorts the four cells of the child in place, so the explicit slice, the first three cells, then
reads `a`, `b`, `m`, and the field section shows `b=4` twice and `z=2` once, where the fields
passed hold `b=4` once and `z=2` twice (as the unsorted section of the same call shows). -/
theorem spread_carrier_section_repeats :
    (sharedChild.1.read (FromContext sharedChild.2)).map Field.Key
        = [ascii "m", ascii "z", ascii "a", ascii "b"]
      ∧ (sharedArgs.read sharedChild.1).map Field.Key = [ascii "m", ascii "z", ascii "a"]
      ∧ (New bareConfig).printFieldsUnsorted sharedChild.1 sharedChild.2 [] LevelInfo sharedArgs
        = ascii "m=1 z=2 a=3 m=1 z=2 a=3 b=4"
      ∧ ((New { bareConfig with SortFields := true }).printFieldsSorted sharedChild.1
          sharedChild.2 [] LevelInfo sharedArgs).map Prod.snd
        = some (ascii "a=3 a=3 b=4 b=4 m=1 m=1 z=2")
      ∧ ((New { bareConfig with SortFields := true }).Info goRuntime
          { State.init with heap := sharedChild.1 } 0 (fun _ => []) sharedChild.2
          (ascii "hello") sharedArgs).map (fun r => r.2.output)
        = some [ascii "INFO hello  a=3 a=3 b=4 b=4 m=1 m=1 z=2\n"] := by
  decide

/-- C7 fails on the code: with `MinMessageWidth = 0` and one carrier field but no explicit
field, nothing separates the message `hello` from the field `foo=bar`. -/
theorem carrier_only_not_separated :
    ((New bareConfig).Info goRuntime
        { State.init with
          heap := (WithContext goRuntime [] Context.background
            [Str (ascii "foo") (ascii "bar")]).1 }
        0 (fun _ => [])
        (WithContext goRuntime [] Context.background [Str (ascii "foo") (ascii "bar")]).2
        (ascii "hello") (Args.fresh [])).map (fun r => r.2.output)
      = some [ascii "INFO hellofoo=bar\n"] := by
  decide

theorem wrapInt_id (x : Int) (h1 : -(2 ^ 63) ≤ x) (h2 : x < 2 ^ 63) : wrapInt x = x := by
  unfold wrapInt
  omega

/-- C8: with `MinMessageWidth = w > 0` and a message of at most `w` bytes, `printMessage`
appends the message and then exactly `w + 2 - len(msg)` spaces, so that message and padding
take `w + 2` bytes (`w + 2` being a value of type `int`). -/
theorem printMessage_pads (l : Logger) (buf msg : Bytes) (needsPad : Bool)
    (hw : 0 < l.cfg.MinMessageWidth) (hlen : (msg.length : Int) ≤ l.cfg.MinMessageWidth)
    (hfit : l.cfg.MinMessageWidth + 2 < 2 ^ 63) :
    l.printMessage buf msg needsPad
        = buf ++ msg ++ List.replicate (l.cfg.MinMessageWidth + 2 - msg.length).toNat 32
      ∧ ((msg ++ List.replicate (l.cfg.MinMessageWidth + 2 - msg.length).toNat 32).length : Int)
        = l.cfg.MinMessageWidth + 2 := by
  have e1 : wrapInt (l.cfg.MinMessageWidth + 2) = l.cfg.MinMessageWidth + 2 :=
    wrapInt_id _ (by omega) hfit
  have e2 : wrapInt (l.cfg.MinMessageWidth + 2 - msg.length)
      = l.cfg.MinMessageWidth + 2 - msg.length := wrapInt_id _ (by omega) (by omega)
  constructor
  · unfold Logger.printMessage
    simp only [gt_iff_lt, hw, if_true, e1, e2, not_lt.mpr hlen, if_false]
  · simp only [List.length_append, List.length_replicate, Nat.cast_add]
    rw [Int.toNat_of_nonneg (by omega)]
    omega

theorem printMessage_pads_witness :
    0 < (New { bareConfig with MinMessageWidth := 40 }).cfg.MinMessageWidth
    ∧ (((ascii "0123456789").length : Int)
        ≤ (New { bareConfig with MinMessageWidth := 40 }).cfg.MinMessageWidth)
    ∧ (New { bareConfig with MinMessageWidth := 40 }).cfg.MinMessageWidth + 2 < 2 ^ 63
    ∧ ((New { bareConfig with MinMessageWidth := 40 }).printMessage [] (ascii "0123456789") true
        = [] ++ ascii "0123456789" ++ List.replicate
            ((New { bareConfig with MinMessageWidth := 40 }).cfg.MinMessageWidth + 2
              - (ascii "0123456789").length).toNat 32
      ∧ ((ascii "0123456789" ++ List.replicate
            ((New { bareConfig with MinMessageWidth := 40 }).cfg.MinMessageWidth + 2
              - (ascii "0123456789").length).toNat 32).length : Int)
        = (New { bareConfig with MinMessageWidth := 40 }).cfg.MinMessageWidth + 2) :=
  ⟨by decide, by decide, by decide,
    printMessage_pads (New { bareConfig with MinMessageWidth := 40 }) [] (ascii "0123456789")
      true (by decide) (by decide) (by decide)⟩

set_option maxRecDepth 100000 in
/-- C9 fails on the code: with `MinMessageWidth = 40` a message of 41 bytes is followed by three
spaces (one of padding and two separators), not by two; from 42 bytes on it is followed by
exactly two. -/
theorem printMessage_one_over_width :
    (New { bareConfig with MinMessageWidth := 40 }).printMessage [] (List.replicate 41 97) true
        = List.replicate 41 97 ++ [32, 32, 32]
      ∧ (New { bareConfig with MinMessageWidth := 40 }).printMessage [] (List.replicate 42 97)
          true
        = List.replicate 42 97 ++ [32, 32] := by
  decide

/-! ## Level labels, colours, the time cache -/

/-- C19, as stated, fails: the label of Trace is not the lower-case text `trac`. -/
theorem levelName_lowercase_refuted :
    (New bareConfig).levelName LevelTrace ≠ some (ascii "trac") := by
  decide

/-- C19, amended: the level labels are the upper-case 4-byte mnemonics `TRAC`, `DEBU`, `INFO`,
`WARN`, `ERRO`, `PANI`, `FATA`, and with colour off `printLevel` appends the label and one
space. -/
theorem levelName_labels (l : Logger) :
    l.levelName LevelTrace = some (ascii "TRAC")
      ∧ l.levelName LevelDebug = some (ascii "DEBU")
      ∧ l.levelName LevelInfo = some (ascii "INFO")
      ∧ l.levelName LevelWarn = some (ascii "WARN")
      ∧ l.levelName LevelError = some (ascii "ERRO")
      ∧ l.levelName LevelPanic = some (ascii "PANI")
      ∧ l.levelName LevelFatal = some (ascii "FATA")
      ∧ (New bareConfig).printLevel [] LevelTrace = some (ascii "TRAC ")
      ∧ (New bareConfig).printLevel [] LevelFatal = some (ascii "FATA ") := by
  refine ⟨?_, ?_, ?_, ?_, ?_, ?_, ?_, by decide, by decide⟩ <;>
    simp [Logger.levelName, LevelTrace, LevelDebug, LevelInfo, LevelWarn, LevelError,
      LevelPanic, LevelFatal]

/-- C20: `writeColorized` appends the level's escape, the text and the reset escape when colour
is on, and the text alone when colour is off; trace and debug share an escape, panic and fatal
share the background escape followed by the foreground escape, and the five escapes differ
from one another. -/
theorem writeColorized_escapes (l : Logger) (buf : Bytes) (lev : Level) (s : Bytes) :
    l.writeColorized buf lev s
        = (if l.cfg.Color then buf ++ levelEscape lev ++ s ++ colorReset else buf ++ s)
      ∧ levelEscape LevelTrace = levelEscape LevelDebug
      ∧ levelEscape LevelPanic = levelEscape LevelFatal
      ∧ levelEscape LevelFatal = colorRedBg ++ colorWhite
      ∧ [levelEscape LevelTrace, levelEscape LevelInfo, levelEscape LevelWarn,
          levelEscape LevelError, levelEscape LevelPanic].Pairwise (fun a b => a ≠ b) := by
  refine ⟨?_, by decide, by decide, by decide, by decide⟩
  unfold Logger.writeColorized levelEscape
  cases hc : l.cfg.Color
  · simp
  · simp only [Bool.not_true, Bool.false_eq_true, if_false, if_true]
    split_ifs <;> simp

theorem timeSub_lt_iff (t u p : Int) (hp : 0 < p) (hmax : p < 2 ^ 63) :
    timeSub t u < p ↔ t - u < p := by
  unfold timeSub
  omega

/-- C14: with a precision `0 < p` (a `time.Duration`, so below `2^63`) and a slot last filled at
a non-zero instant `t0`, a call at `t` with `t - t0 < p` returns the cached text and leaves the
slot as it is, and a call with `t - t0 >= p` returns `format(t)` and stores `(t, format(t))`. -/
theorem timeCache_call (rt : Runtime) (c : TimeCache) (t : Int) (hp : 0 < c.precision)
    (hmax : c.precision < 2 ^ 63) (h0 : c.lastTime ≠ 0) :
    c.call rt t
      = (if t - c.lastTime < c.precision then (c.lastTimeStr, c)
         else (rt.format t c.format,
               { c with lastTime := t, lastTimeStr := rt.format t c.format })) := by
  unfold TimeCache.call
  have hz : (c.lastTime == 0) = false := by simpa using h0
  by_cases h : t - c.lastTime < c.precision
  · have := (timeSub_lt_iff t c.lastTime c.precision hp hmax).mpr h
    simp [hz, h, this]
  · have : ¬ timeSub t c.lastTime < c.precision :=
      fun h' => h ((timeSub_lt_iff t c.lastTime c.precision hp hmax).mp h')
    simp [hz, h, this]

theorem timeCache_call_witness :
    0 < filledCache.precision ∧ filledCache.precision < 2 ^ 63 ∧ filledCache.lastTime ≠ 0
      ∧ filledCache.call goRuntime 5000400000
        = (if 5000400000 - filledCache.lastTime < filledCache.precision then
            (filledCache.lastTimeStr, filledCache)
           else (goRuntime.format 5000400000 filledCache.format,
                 { filledCache with
                   lastTime := 5000400000,
                   lastTimeStr := goRuntime.format 5000400000 filledCache.format })) :=
  ⟨by decide, by decide, by decide,
    timeCache_call goRuntime filledCache 5000400000 (by decide) (by decide) (by decide)⟩

/-! ## types.go: what the constructors render -/

theorem decimalValue_append (t : Bytes) (c : Nat) :
    decimalValue (t ++ [c]) = decimalValue t * 10 + (c - 48) := by
  simp [decimalValue, List.foldl_append]

theorem decimalValue_digits (fuel n : Nat) (h : n < 10 ^ fuel) :
    decimalValue (decimalDigits fuel n) = n := by
  induction fuel generalizing n with
  | zero =>
    have : n = 0 := by simpa using h
    subst this
    rfl
  | succ fuel ih =>
    unfold decimalDigits
    by_cases h10 : n < 10
    · simp [h10, decimalValue]
    · rw [if_neg h10, decimalValue_append, ih (n / 10) (by
        rw [pow_succ] at h
        exact Nat.div_lt_of_lt_mul (by omega))]
      omega

theorem decimalDigits_digit (fuel n c : Nat) (hc : c ∈ decimalDigits fuel n) :
    48 ≤ c ∧ c ≤ 57 := by
  induction fuel generalizing n with
  | zero => simp [decimalDigits] at hc
  | succ fuel ih =>
    unfold decimalDigits at hc
    by_cases h10 : n < 10
    · rw [if_pos h10] at hc
      simp at hc
      omega
    · rw [if_neg h10] at hc
      rcases List.mem_append.mp hc with h | h
      · exact ih _ h
      · simp at h
        omega

theorem formatUint_value (v : Nat) (hv : v < 2 ^ 64) : decimalValue (formatUint v) = v :=
  decimalValue_digits 20 v (by omega)

theorem formatInt_value (v : Int) (h1 : -(2 ^ 63) ≤ v) (h2 : v < 2 ^ 63) :
    signedDecimalValue (formatInt v) = v := by
  unfold formatInt
  by_cases hneg : v < 0
  · rw [if_pos hneg]
    show -((decimalValue (formatUint v.natAbs) : Nat) : Int) = v
    rw [formatUint_value _ (by omega)]
    omega
  · rw [if_neg hneg]
    have hd : ∀ c ∈ formatUint v.toNat, 48 ≤ c ∧ c ≤ 57 :=
      fun c hc => decimalDigits_digit 20 _ c hc
    have hval := formatUint_value v.toNat (by omega)
    cases hf : formatUint v.toNat with
    | nil =>
      rw [hf] at hval
      show ((decimalValue [] : Nat) : Int) = v
      rw [hval]
      omega
    | cons c cs =>
      have hc := hd c (by rw [hf]; exact List.mem_cons_self _ _)
      have hne : c ≠ 45 := by omega
      rw [hf] at hval
      have : signedDecimalValue (c :: cs) = ((decimalValue (c :: cs) : Nat) : Int) := by
        unfold signedDecimalValue
        split
        · rename_i ds heq
          exact absurd (List.cons.inj heq).1 hne
        · rfl
      rw [this, hval]
      omega

theorem printField_plain (l : Logger) (buf : Bytes) (lev : Level) (f : Field) (v : Bytes)
    (hc : l.cfg.Color = false) (hf : f.Renders v) :
    l.printField buf lev f false = buf ++ f.Key ++ [61] ++ v
      ∧ l.printField buf lev f true = buf ++ [32] ++ f.Key ++ [61] ++ v := by
  simp [Logger.printField, Logger.writeColorized, hc, hf _]

/-- C16: `Int64(k, v)` keeps the key and appends the signed base-10 text of `v`, `Uint64(k, u)`
the unsigned base-10 text of `u`, and `Bool(k, b)` the text `true` or `false`; with colour off
`printField` writes the key, `=` and that text; the decimal texts consist of digits (after the
sign) and denote the number they were made from. -/
theorem numeric_fields_render (l : Logger) (buf : Bytes) (lev : Level) (k : Bytes) (v : Int)
    (u : Nat) (b : Bool) (hc : l.cfg.Color = false) (hv1 : -(2 ^ 63) ≤ v) (hv2 : v < 2 ^ 63)
    (hu : u < 2 ^ 64) :
    ((Int64 k v).Key = k ∧ (Int64 k v).Renders (formatInt v)
        ∧ l.printField buf lev (Int64 k v) false = buf ++ k ++ [61] ++ formatInt v
        ∧ signedDecimalValue (formatInt v) = v
        ∧ formatInt v = (if v < 0 then [45] else []) ++ formatUint v.natAbs)
      ∧ ((Uint64 k u).Key = k ∧ (Uint64 k u).Renders (formatUint u)
        ∧ l.printField buf lev (Uint64 k u) false = buf ++ k ++ [61] ++ formatUint u
        ∧ decimalValue (formatUint u) = u
        ∧ ∀ c ∈ formatUint u, 48 ≤ c ∧ c ≤ 57)
      ∧ ((Bool_ k b).Key = k
        ∧ (Bool_ k b).Renders (if b then ascii "true" else ascii "false")
        ∧ l.printField buf lev (Bool_ k b) false
          = buf ++ k ++ [61] ++ (if b then ascii "true" else ascii "false"))
      ∧ (New bareConfig).printField [] LevelInfo (Int64 (ascii "n") (-42)) false
          = ascii "n=-42"
      ∧ (New bareConfig).printField [] LevelInfo (Uint64 (ascii "n") 42) false = ascii "n=42"
      ∧ (New bareConfig).printField [] LevelInfo (Bool_ (ascii "b") true) false
          = ascii "b=true" := by
  have hi : (Int64 k v).Renders (formatInt v) := fun _ => rfl
  have hu' : (Uint64 k u).Renders (formatUint u) := fun _ => rfl
  have hb : (Bool_ k b).Renders (if b then ascii "true" else ascii "false") := fun _ => rfl
  refine ⟨⟨rfl, hi, (printField_plain l buf lev _ _ hc hi).1, formatInt_value v hv1 hv2, ?_⟩,
    ⟨rfl, hu', (printField_plain l buf lev _ _ hc hu').1, formatUint_value u hu,
      fun c hc' => decimalDigits_digit 20 _ c hc'⟩,
    ⟨rfl, hb, (printField_plain l buf lev _ _ hc hb).1⟩, by decide, by decide, by decide⟩
  unfold formatInt
  by_cases hneg : v < 0
  · simp [hneg]
  · have : v.toNat = v.natAbs := by omega
    simp [hneg, this]

theorem numeric_fields_render_witness :
    (New bareConfig).cfg.Color = false ∧ -(2 ^ 63) ≤ (-42 : Int) ∧ (-42 : Int) < 2 ^ 63
      ∧ (42 : Nat) < 2 ^ 64
      ∧ (New bareConfig).printField [] LevelInfo (Int64 (ascii "n") (-42)) false
          = [] ++ ascii "n" ++ [61] ++ formatInt (-42)
      ∧ signedDecimalValue (formatInt (-42)) = -42
      ∧ decimalValue (formatUint 42) = 42 :=
  have h := numeric_fields_render (New bareConfig) [] LevelInfo (ascii "n") (-42) 42 true
    (by decide) (by decide) (by decide) (by decide)
  ⟨by decide, by decide, by decide, by decide, h.1.2.2.1, h.1.2.2.2.1, h.2.1.2.2.2.1⟩

/-- C17, as stated, fails: a `float64` is none of the listed types, yet `Any` does not render
its generic stringification; for the value 1000000 it renders `1000000`, not `1e+06`. -/
theorem any_float_not_sprint :
    (Any floatEnv (ascii "x") (GoValue.float64 4696837146684686336)).ValueFn []
        = ascii "1000000"
      ∧ floatEnv.sprint (GoValue.float64 4696837146684686336) = ascii "1e+06"
      ∧ (Any floatEnv (ascii "x") (GoValue.float64 4696837146684686336)).ValueFn []
        ≠ [] ++ floatEnv.sprint (GoValue.float64 4696837146684686336) := by
  decide

/-- C17, amended: for a value of a type with a `case` in the switch (string, []byte, the signed
and unsigned integer types, float32, float64, bool, duration, timestamp) `Any` returns the very
field of the matching typed constructor, applied to the value widened to 64 bits; for a value
of any other type it returns a field with the given key that appends the generic
stringification of the value. -/
theorem any_dispatch (env : Env) (key : Bytes) :
    (∀ v, Any env key (.string v) = Str key v)
      ∧ (∀ v, Any env key (.bytes v) = Str key v)
      ∧ (∀ v, Any env key (.int v) = Int_ key v ∧ Int_ key v = Int64 key v)
      ∧ (∀ v, Any env key (.int8 v) = Int64 key v)
      ∧ (∀ v, Any env key (.int16 v) = Int64 key v)
      ∧ (∀ v, Any env key (.int32 v) = Int64 key v)
      ∧ (∀ v, Any env key (.int64 v) = Int64 key v)
      ∧ (∀ v, Any env key (.uint v) = Uint key v ∧ Uint key v = Uint64 key v)
      ∧ (∀ v, Any env key (.uint8 v) = Uint64 key v)
      ∧ (∀ v, Any env key (.uint16 v) = Uint64 key v)
      ∧ (∀ v, Any env key (.uint32 v) = Uint64 key v)
      ∧ (∀ v, Any env key (.uint64 v) = Uint64 key v)
      ∧ (∀ v, Any env key (.float32 v) = Float32 env key v)
      ∧ (∀ v, Any env key (.float64 v) = Float64 env key v)
      ∧ (∀ v, Any env key (.bool v) = Bool_ key v)
      ∧ (∀ v, Any env key (.duration v) = Duration env key v)
      ∧ (∀ v, Any env key (.time v) = Time env key v)
      ∧ (∀ n, (Any env key (.other n)).Key = key
          ∧ (Any env key (.other n)).Renders (env.sprint (.other n))) := by
  refine ⟨?_, ?_, ?_, ?_, ?_, ?_, ?_, ?_, ?_, ?_, ?_, ?_, ?_, ?_, ?_, ?_, ?_, ?_⟩ <;> intro v
  all_goals first
    | rfl
    | exact ⟨rfl, rfl⟩
    | exact ⟨rfl, fun _ => rfl⟩

theorem any_appendOnly (env : Env) (key : Bytes) (value : GoValue) :
    (Any env key value).Key = key ∧ (Any env key value).AppendOnly := by
  cases value <;> exact ⟨rfl, ⟨_, fun _ => rfl⟩⟩

/-- C18: every constructor returns a field with the key it was given (`error` for `Cause`)
whose `ValueFn` returns the buffer it got followed by the rendered value, the same bytes for
every buffer. -/
theorem constructors_append (env : Env) (key : Bytes) :
    (∀ v, (Str key v).Key = key ∧ (Str key v).Renders v)
      ∧ (∀ v, (Int_ key v).Key = key ∧ (Int_ key v).Renders (formatInt v))
      ∧ (∀ v, (Int64 key v).Key = key ∧ (Int64 key v).Renders (formatInt v))
      ∧ (∀ v, (Uint key v).Key = key ∧ (Uint key v).Renders (formatUint v))
      ∧ (∀ v, (Uint64 key v).Key = key ∧ (Uint64 key v).Renders (formatUint v))
      ∧ (∀ v, (Bool_ key v).Key = key
          ∧ (Bool_ key v).Renders (if v then ascii "true" else ascii "false"))
      ∧ (∀ v, (Duration env key v).Key = key ∧ (Duration env key v).Renders
          (env.durationString (durationTruncate v env.DurationPrecision)))
      ∧ (∀ v, (Time env key v).Key = key
          ∧ (Time env key v).Renders (env.format v env.TimeFormat))
      ∧ (∀ err, (Cause err).Key = ascii "error" ∧ (Cause err).Renders err)
      ∧ (∀ v, (Float32 env key v).Key = key
          ∧ (Float32 env key v).Renders (env.formatFloat v 32))
      ∧ (∀ v, (Float64 env key v).Key = key
          ∧ (Float64 env key v).Renders (env.formatFloat v 64))
      ∧ (∀ value, (Any env key value).Key = key ∧ (Any env key value).AppendOnly)
      ∧ (∀ (f : Field) (v b : Bytes), f.Renders v →
          (f.ValueFn b).take b.length = b ∧ (f.ValueFn b).drop b.length = v) := by
  refine ⟨?_, ?_, ?_, ?_, ?_, ?_, ?_, ?_, ?_, ?_, ?_, any_appendOnly env key, ?_⟩
  case refine_12 =>
    intro f v b hf
    rw [hf b]
    exact ⟨by simp, by simp⟩
  all_goals
    intro v
    exact ⟨rfl, fun _ => rfl⟩

/-! ## The record: field section, line layout, stack trace, timestamp -/

theorem writeColorized_buf (l : Logger) (buf : Bytes) (lev : Level) (s : Bytes) :
    l.writeColorized buf lev s = buf ++ l.writeColorized [] lev s := by
  have h := (writeColorized_escapes l buf lev s).1
  have h0 := (writeColorized_escapes l [] lev s).1
  rw [h, h0]
  cases l.cfg.Color <;> simp

theorem printField_buf (l : Logger) (buf : Bytes) (lev : Level) (f : Field) (pad : Bool)
    (hf : f.AppendOnly) : l.printField buf lev f pad = buf ++ l.printField [] lev f pad := by
  obtain ⟨v, hv⟩ := hf
  unfold Logger.printField
  simp only [hv _]
  cases pad
  · simp only [Bool.false_eq_true, if_false]
    rw [writeColorized_buf]
    simp
  · simp only [if_true]
    rw [writeColorized_buf l (buf ++ [32]), writeColorized_buf l ([] ++ [32])]
    simp

theorem printFieldsFrom_buf (l : Logger) (lev : Level) (off : Nat) (fs : List Field) (i : Nat)
    (buf : Bytes) (hfs : ∀ f ∈ fs, f.AppendOnly) :
    l.printFieldsFrom lev off fs i buf = buf ++ l.printFieldsFrom lev off fs i [] := by
  induction fs generalizing i buf with
  | nil => simp [Logger.printFieldsFrom]
  | cons f fs ih =>
    have hf := hfs f (List.mem_cons_self _ _)
    have hrest : ∀ g ∈ fs, g.AppendOnly := fun g hg => hfs g (List.mem_cons_of_mem _ hg)
    simp only [Logger.printFieldsFrom]
    rw [ih _ _ hrest, ih _ (l.printField [] lev f _) hrest, printField_buf l buf lev f _ hf]
    simp

theorem printMessage_buf (l : Logger) (buf msg : Bytes) (needsPad : Bool) :
    l.printMessage buf msg needsPad = buf ++ l.printMessage [] msg needsPad := by
  unfold Logger.printMessage
  simp only [List.nil_append]
  split_ifs <;> simp

theorem printMessage_spaces (l : Logger) (msg : Bytes) (needsPad : Bool) :
    ∃ n : Nat, l.printMessage [] msg needsPad = msg ++ List.replicate n 32 := by
  unfold Logger.printMessage
  simp only [List.nil_append]
  split_ifs
  · exact ⟨(wrapInt (wrapInt (l.cfg.MinMessageWidth + 2) - msg.length)).toNat + 2, by
      simp [List.replicate_add]⟩
  · exact ⟨_, rfl⟩
  · exact ⟨2, by simp [List.replicate]⟩
  · exact ⟨0, by simp⟩

theorem printFieldsUnsorted_eq (l : Logger) (h : Heap) (ctx : Context) (buf : Bytes)
    (lev : Level) (fields : List Field) :
    l.printFieldsUnsorted h ctx buf lev (Args.fresh fields)
      = l.printFieldsFrom lev 0 (fields ++ h.read (FromContext ctx)) 0 buf := by
  unfold Logger.printFieldsUnsorted
  simp only [Args.read, Args.len]
  rw [printFieldsFrom_append, printFieldsFrom_off]

theorem printFieldsUnsorted_spread (l : Logger) (h : Heap) (ctx : Context) (buf : Bytes)
    (lev : Level) (fields : Args) (hlen : fields.len = (fields.read h).length) :
    l.printFieldsUnsorted h ctx buf lev fields
      = l.printFieldsUnsorted h ctx buf lev (Args.fresh (fields.read h)) := by
  unfold Logger.printFieldsUnsorted
  rw [hlen]
  rfl

theorem printFields_buf (l : Logger) (h : Heap) (ctx : Context) (lev : Level)
    (fields : List Field) (hfs : ∀ f ∈ fields ++ h.read (FromContext ctx), f.AppendOnly) :
    ∃ (h' : Heap) (sect : Bytes),
      l.printFields h ctx [] lev (Args.fresh fields) = some (h', sect)
      ∧ ∀ buf : Bytes,
          l.printFields h ctx buf lev (Args.fresh fields) = some (h', buf ++ sect) := by
  unfold Logger.printFields
  by_cases hs : l.cfg.SortFields
  · simp only [hs, if_true, printFieldsSorted_eq]
    refine ⟨_, _, rfl, fun buf => ?_⟩
    rw [printFieldsFrom_buf l lev 0 _ 0 buf (fun f hf =>
      hfs f ((emitted_perm _ _).mem_iff.mp hf))]
  · simp only [hs, Bool.false_eq_true, if_false, printFieldsUnsorted_eq]
    refine ⟨_, _, rfl, fun buf => ?_⟩
    rw [printFieldsFrom_buf l lev 0 _ 0 buf hfs]

theorem intercalate_cons (sep x : Bytes) (xs : List Bytes) :
    sep.intercalate (x :: xs) = x ++ (xs.map (fun y => sep ++ y)).flatten := by
  induction xs generalizing x with
  | nil => simp [List.intercalate, List.intersperse]
  | cons y ys ih =>
    have := ih y
    simp only [List.intercalate, List.intersperse, List.flatten_cons, List.map_cons] at this ⊢
    rw [this]
    simp

theorem printFieldsFrom_plain_pos (l : Logger) (lev : Level) (fs : List Field) (i : Nat)
    (buf : Bytes) (val : Field → Bytes) (hc : l.cfg.Color = false) (hi : 0 < i)
    (hval : ∀ f ∈ fs, f.Renders (val f)) :
    l.printFieldsFrom lev 0 fs i buf
      = buf ++ (fs.map (fun f => [32] ++ (f.Key ++ [61] ++ val f))).flatten := by
  induction fs generalizing i buf with
  | nil => simp [Logger.printFieldsFrom]
  | cons f fs ih =>
    have hf := hval f (List.mem_cons_self _ _)
    have hrest : ∀ g ∈ fs, g.Renders (val g) := fun g hg => hval g (List.mem_cons_of_mem _ hg)
    have hd : decide (i + 0 > 0) = true := by simpa using hi
    simp only [Logger.printFieldsFrom, hd]
    rw [ih (i + 1) _ (by omega) hrest, (printField_plain l buf lev f _ hc hf).2]
    simp

/-- C11: in unsorted mode with colour off, for fields that append their rendered value, the
field section is the explicit fields `e` of the call in call order followed by the carrier
fields in attach order, each as key, `=`, rendered value, joined by single spaces (so with no
leading and no trailing space). -/
theorem unsorted_section (l : Logger) (h : Heap) (ctx : Context) (buf : Bytes) (lev : Level)
    (e : List Field) (val : Field → Bytes) (hc : l.cfg.Color = false)
    (hval : ∀ f ∈ e ++ h.read (FromContext ctx), f.Renders (val f)) :
    l.printFieldsUnsorted h ctx buf lev (Args.fresh e)
      = buf ++ List.intercalate [32]
          ((e ++ h.read (FromContext ctx)).map (fun f => f.Key ++ [61] ++ val f)) := by
  rw [printFieldsUnsorted_eq]
  cases hfs : e ++ h.read (FromContext ctx) with
  | nil => simp [Logger.printFieldsFrom, List.intercalate]
  | cons f fs =>
    rw [hfs] at hval
    have hf := hval f (List.mem_cons_self _ _)
    have hrest : ∀ g ∈ fs, g.Renders (val g) := fun g hg => hval g (List.mem_cons_of_mem _ hg)
    simp only [Logger.printFieldsFrom, List.map_cons, intercalate_cons]
    rw [printFieldsFrom_plain_pos l lev fs 1 _ val hc (by omega) hrest]
    have hd : decide (0 + 0 > 0) = false := by decide
    rw [hd, (printField_plain l buf lev f _ hc hf).1]
    simp [Function.comp_def]

theorem unsorted_section_witness :
    (New bareConfig).cfg.Color = false
      ∧ (∀ f ∈ [Str (ascii "id") (ascii "7")] ++ zoneFoo.1.read (FromContext zoneFoo.2),
          f.Renders (f.ValueFn []))
      ∧ (New bareConfig).printFieldsUnsorted zoneFoo.1 zoneFoo.2 [] LevelInfo
          (Args.fresh [Str (ascii "id") (ascii "7")])
        = [] ++ List.intercalate [32]
            (([Str (ascii "id") (ascii "7")] ++ zoneFoo.1.read (FromContext zoneFoo.2)).map
              (fun f => f.Key ++ [61] ++ f.ValueFn [])) :=
  have hread : zoneFoo.1.read (FromContext zoneFoo.2)
      = [Str (ascii "zone") (ascii "two"), Str (ascii "foo") (ascii "bar")] := rfl
  have hval : ∀ f ∈ [Str (ascii "id") (ascii "7")] ++ zoneFoo.1.read (FromContext zoneFoo.2),
      f.Renders (f.ValueFn []) := by
    intro f hf
    rw [hread] at hf
    simp only [List.cons_append, List.nil_append, List.mem_cons, List.mem_singleton,
      List.not_mem_nil, or_false] at hf
    rcases hf with rfl | rfl | rfl <;> exact fun _ => rfl
  ⟨rfl, hval,
    unsorted_section (New bareConfig) zoneFoo.1 zoneFoo.2 [] LevelInfo
      [Str (ascii "id") (ascii "7")] (fun f => f.ValueFn []) rfl hval⟩

theorem printStackTrace_buf (l : Logger) (stack : Int → Bytes) (buf : Bytes) (lev : Level) :
    l.printStackTrace stack buf lev
      = buf ++ (if lev ≥ l.cfg.StackTraceLevel then stack l.cfg.StackTraceSkip ++ [10]
                else []) := by
  unfold Logger.printStackTrace
  split_ifs <;> simp

theorem printTime_buf (rt : Runtime) (l : Logger) (now : Int) (buf : Bytes) :
    (l.printTime rt now buf).1
        = buf ++ (if l.cfg.Time then l.timeText rt now ++ [32] else [])
      ∧ (l.printTime rt now buf).2 = (l.printTime rt now []).2 := by
  unfold Logger.printTime Logger.timeText
  cases hT : l.cfg.Time
  · simp
  · cases l.timeCache <;> simp

theorem print_record (rt : Runtime) (l : Logger) (s : State) (now : Int) (stack : Int → Bytes)
    (ctx : Context) (lev : Level) (msg : Bytes) (fields : List Field)
    (hact : l.cfg.Level ≤ lev) (h0 : LevelTrace ≤ lev) (h6 : lev ≤ LevelFatal)
    (hfs : ∀ f ∈ fields ++ s.heap.read (FromContext ctx), f.AppendOnly) :
    ∃ (name sect : Bytes) (h' : Heap),
      l.levelName lev = some name
        ∧ l.printFields s.heap ctx [] lev (Args.fresh fields) = some (h', sect)
        ∧ l.print rt s now stack ctx lev msg (Args.fresh fields)
          = some ({ l with timeCache := (l.printTime rt now []).2 },
              { s with
                heap := h'
                output := s.output ++
                  [(if l.cfg.Time then l.timeText rt now ++ [32] else [])
                    ++ l.writeColorized [] lev name ++ [32]
                    ++ l.printMessage [] msg (decide (fields.length > 0)) ++ sect ++ [10]
                    ++ (if lev ≥ l.cfg.StackTraceLevel then
                          stack l.cfg.StackTraceSkip ++ [10]
                        else [])] }) := by
  obtain ⟨name, hname⟩ := levelName_some l lev h0 h6
  obtain ⟨h', sect, hsect, hbuf⟩ := printFields_buf l s.heap ctx lev fields hfs
  refine ⟨name, sect, h', hname, hsect, ?_⟩
  unfold Logger.print
  rw [if_neg (not_lt.mpr hact)]
  simp only [Logger.printLevel, hname, Option.map_some', Option.some_bind, hbuf, Args.len]
  rw [printStackTrace_buf, printMessage_buf, writeColorized_buf, (printTime_buf rt l now []).1]
  simp

/-- C12: with colour off, for fields that only append (the explicit ones written out at the
call), the bytes of the single write are: the timestamp text and one space when `Time` is on,
the level label, one space, the message, its padding of spaces, the field section, one newline,
and, when the level is at least `StackTraceLevel`, the stack text and one more newline. -/
theorem record_layout (rt : Runtime) (l : Logger) (s : State) (now : Int) (stack : Int → Bytes)
    (ctx : Context) (lev : Level) (msg : Bytes) (fields : List Field)
    (hc : l.cfg.Color = false) (hact : l.cfg.Level ≤ lev) (h0 : LevelTrace ≤ lev)
    (h6 : lev ≤ LevelFatal)
    (hfs : ∀ f ∈ fields ++ s.heap.read (FromContext ctx), f.AppendOnly) :
    ∃ (name sect : Bytes) (h' : Heap) (l' : Logger) (n : Nat),
      l.levelName lev = some name
        ∧ l.printFields s.heap ctx [] lev (Args.fresh fields) = some (h', sect)
        ∧ l.printMessage [] msg (decide (fields.length > 0)) = msg ++ List.replicate n 32
        ∧ l.print rt s now stack ctx lev msg (Args.fresh fields)
          = some (l',
              { s with
                heap := h'
                output := s.output ++
                  [(if l.cfg.Time then l.timeText rt now ++ [32] else [])
                    ++ name ++ [32] ++ msg ++ List.replicate n 32 ++ sect ++ [10]
                    ++ (if lev ≥ l.cfg.StackTraceLevel then
                          stack l.cfg.StackTraceSkip ++ [10]
                        else [])] }) := by
  obtain ⟨name, sect, h', hname, hsect, hprint⟩ :=
    print_record rt l s now stack ctx lev msg fields hact h0 h6 hfs
  obtain ⟨n, hn⟩ := printMessage_spaces l msg (decide (fields.length > 0))
  refine ⟨name, sect, h', { l with timeCache := (l.printTime rt now []).2 }, n, hname, hsect,
    hn, ?_⟩
  rw [hprint, hn]
  have hw : l.writeColorized [] lev name = name := by
    simp [Logger.writeColorized, hc]
  rw [hw]
  simp

theorem record_layout_witness :
    (New bareConfig).cfg.Color = false ∧ (New bareConfig).cfg.Level ≤ LevelInfo
      ∧ LevelTrace ≤ LevelInfo ∧ LevelInfo ≤ LevelFatal
      ∧ (∀ f ∈ [Str (ascii "id") (ascii "7")] ++ State.init.heap.read
          (FromContext Context.background), f.AppendOnly)
      ∧ ∃ (name sect : Bytes) (h' : Heap) (l' : Logger) (n : Nat),
        (New bareConfig).levelName LevelInfo = some name
          ∧ (New bareConfig).printFields State.init.heap Context.background [] LevelInfo
              (Args.fresh [Str (ascii "id") (ascii "7")]) = some (h', sect)
          ∧ (New bareConfig).printMessage [] (ascii "hello")
              (decide ([Str (ascii "id") (ascii "7")].length > 0))
            = ascii "hello" ++ List.replicate n 32
          ∧ (New bareConfig).print goRuntime State.init 0 (fun _ => []) Context.background
              LevelInfo (ascii "hello") (Args.fresh [Str (ascii "id") (ascii "7")])
            = some (l',
                { State.init with
                  heap := h'
                  output := State.init.output ++
                    [(if (New bareConfig).cfg.Time then
                        (New bareConfig).timeText goRuntime 0 ++ [32]
                      else [])
                      ++ name ++ [32] ++ ascii "hello" ++ List.replicate n 32 ++ sect ++ [10]
                      ++ (if LevelInfo ≥ (New bareConfig).cfg.StackTraceLevel then
                            (fun _ => []) (New bareConfig).cfg.StackTraceSkip ++ [10]
                          else [])] }) :=
  have hfs : ∀ f ∈ [Str (ascii "id") (ascii "7")] ++ State.init.heap.read
      (FromContext Context.background), f.AppendOnly := by
    intro f hf
    have hread : State.init.heap.read (FromContext Context.background) = [] := rfl
    rw [hread] at hf
    simp only [List.append_nil, List.mem_singleton] at hf
    subst hf
    exact ⟨_, fun _ => rfl⟩
  ⟨rfl, by decide, by decide, by decide, hfs,
    record_layout goRuntime (New bareConfig) State.init 0 (fun _ => []) Context.background
      LevelInfo (ascii "hello") [Str (ascii "id") (ascii "7")] rfl (by decide) (by decide)
      (by decide) hfs⟩

/-- C13: the record of an active level is the bytes up to the end of the field section and one
newline, followed by the stack text and one more newline exactly when the level is at least
`StackTraceLevel`; below that level the record ends with the newline after the field section. -/
theorem stack_trace_block (rt : Runtime) (l : Logger) (s : State) (now : Int)
    (stack : Int → Bytes) (ctx : Context) (lev : Level) (msg : Bytes) (fields : Args)
    (hact : l.cfg.Level ≤ lev) (h0 : LevelTrace ≤ lev) (h6 : lev ≤ LevelFatal) :
    (∀ buf : Bytes, l.printStackTrace stack buf lev
        = (if lev ≥ l.cfg.StackTraceLevel then buf ++ stack l.cfg.StackTraceSkip ++ [10]
           else buf))
      ∧ ∃ (b1 : Bytes) (r : Heap × Bytes) (l' : Logger),
          l.printLevel (l.printTime rt now []).1 lev = some b1
            ∧ l.printFields s.heap ctx (l.printMessage b1 msg (decide (fields.len > 0)))
                lev fields = some r
            ∧ l.print rt s now stack ctx lev msg fields
              = some (l',
                  { s with
                    heap := r.1
                    output := s.output ++
                      [if lev ≥ l.cfg.StackTraceLevel then
                         r.2 ++ [10] ++ stack l.cfg.StackTraceSkip ++ [10]
                       else r.2 ++ [10]] }) := by
  constructor
  · intro buf
    unfold Logger.printStackTrace
    split_ifs <;> rfl
  · obtain ⟨name, hname⟩ := levelName_some l lev h0 h6
    obtain ⟨r, hr⟩ := printFields_some l s.heap ctx
      (l.printMessage (l.writeColorized (l.printTime rt now []).1 lev name ++ [32]) msg
        (decide (fields.len > 0))) lev fields
    refine ⟨l.writeColorized (l.printTime rt now []).1 lev name ++ [32], r,
      { l with timeCache := (l.printTime rt now []).2 }, ?_, hr, ?_⟩
    · simp [Logger.printLevel, hname]
    · unfold Logger.print
      rw [if_neg (not_lt.mpr hact)]
      simp only [Logger.printLevel, hname, Option.map_some', Option.some_bind, hr]
      unfold Logger.printStackTrace
      split_ifs <;> rfl

theorem stack_trace_block_witness :
    (New bareConfig).cfg.Level ≤ LevelError ∧ LevelTrace ≤ LevelError
      ∧ LevelError ≤ LevelFatal
      ∧ ((∀ buf : Bytes, (New bareConfig).printStackTrace (fun _ => ascii "main.main") buf
            LevelError
          = (if LevelError ≥ (New bareConfig).cfg.StackTraceLevel then
               buf ++ (fun _ => ascii "main.main") (New bareConfig).cfg.StackTraceSkip ++ [10]
             else buf))
        ∧ ∃ (b1 : Bytes) (r : Heap × Bytes) (l' : Logger),
            (New bareConfig).printLevel ((New bareConfig).printTime goRuntime 0 []).1
                LevelError = some b1
              ∧ (New bareConfig).printFields State.init.heap Context.background
                  ((New bareConfig).printMessage b1 (ascii "failed")
                    (decide ((Args.fresh []).len > 0))) LevelError (Args.fresh []) = some r
              ∧ (New bareConfig).print goRuntime State.init 0 (fun _ => ascii "main.main")
                  Context.background LevelError (ascii "failed") (Args.fresh [])
                = some (l',
                    { State.init with
                      heap := r.1
                      output := State.init.output ++
                        [if LevelError ≥ (New bareConfig).cfg.StackTraceLevel then
                           r.2 ++ [10]
                             ++ (fun _ => ascii "main.main")
                                  (New bareConfig).cfg.StackTraceSkip ++ [10]
                         else r.2 ++ [10]] })) :=
  ⟨by decide, by decide, by decide,
    stack_trace_block goRuntime (New bareConfig) State.init 0 (fun _ => ascii "main.main")
      Context.background LevelError (ascii "failed") (Args.fresh []) (by decide) (by decide)
      (by decide)⟩

/-- C15: with `TimePrecision = 0`, as in `DefaultConfig`, `New` installs no time cache;
`printTime` then appends the current instant formatted with `TimeFormat` and one space, a call
leaves the logger without a cache, and the record of an active level, for fields that only
append (the explicit ones written out at the call), begins with the freshly formatted
instant. -/
theorem no_cache_formats_afresh (rt : Runtime) (cfg : Config) (hp : cfg.TimePrecision = 0)
    (hT : cfg.Time = true) :
    (New cfg).timeCache = none
      ∧ DefaultConfig.TimePrecision = 0 ∧ DefaultConfig.Time = true
      ∧ (∀ (now : Int) (buf : Bytes),
          (New cfg).printTime rt now buf = (buf ++ rt.format now cfg.TimeFormat ++ [32], none))
      ∧ (∀ (s : State) (now : Int) (stack : Int → Bytes) (ctx : Context) (lev : Level)
          (msg : Bytes) (fields : Args) (l' : Logger) (s' : State),
          (New cfg).print rt s now stack ctx lev msg fields = some (l', s') → l' = New cfg)
      ∧ (∀ (s : State) (now : Int) (stack : Int → Bytes) (ctx : Context) (lev : Level)
          (msg : Bytes) (fields : List Field),
          cfg.Level ≤ lev → LevelTrace ≤ lev → lev ≤ LevelFatal →
          (∀ f ∈ fields ++ s.heap.read (FromContext ctx), f.AppendOnly) →
          ∃ (l' : Logger) (s' : State) (rest : Bytes),
            (New cfg).print rt s now stack ctx lev msg (Args.fresh fields) = some (l', s')
              ∧ s'.output = s.output ++ [rt.format now cfg.TimeFormat ++ [32] ++ rest]) := by
  have hnone : (New cfg).timeCache = none := by
    simp [New, hp]
  have hcfg : (New cfg).cfg = cfg := rfl
  have htime : ∀ (now : Int) (buf : Bytes),
      (New cfg).printTime rt now buf = (buf ++ rt.format now cfg.TimeFormat ++ [32], none) := by
    intro now buf
    simp [Logger.printTime, hnone, hcfg, hT]
  refine ⟨hnone, rfl, rfl, htime, ?_, ?_⟩
  · intro s now stack ctx lev msg fields l' s' h
    unfold Logger.print at h
    by_cases hlt : lev < (New cfg).cfg.Level
    · rw [if_pos hlt] at h
      exact ((Prod.mk.inj (Option.some.inj h)).1).symm
    · rw [if_neg hlt] at h
      cases hl : (New cfg).printLevel ((New cfg).printTime rt now []).1 lev with
      | none => simp [hl] at h
      | some b1 =>
        simp only [hl, Option.some_bind] at h
        cases hf : (New cfg).printFields s.heap ctx
            ((New cfg).printMessage b1 msg (decide (fields.len > 0))) lev fields with
        | none => simp [hf] at h
        | some r =>
          simp only [hf, Option.map_some', Option.some.injEq, Prod.mk.injEq] at h
          rw [← h.1, htime now []]
          simp [New, hp]
  · intro s now stack ctx lev msg fields hact h0 h6 hfs
    obtain ⟨name, sect, h', _, _, hprint⟩ :=
      print_record rt (New cfg) s now stack ctx lev msg fields hact h0 h6 hfs
    have htext : (New cfg).timeText rt now = rt.format now cfg.TimeFormat := by
      simp [Logger.timeText, hnone, hcfg]
    refine ⟨_, _,
      (New cfg).writeColorized [] lev name ++ [32]
        ++ (New cfg).printMessage [] msg (decide (fields.length > 0)) ++ sect ++ [10]
        ++ (if lev ≥ (New cfg).cfg.StackTraceLevel then
              stack (New cfg).cfg.StackTraceSkip ++ [10]
            else []), hprint, ?_⟩
    simp only [hcfg, hT, if_true, htext, List.append_assoc]

theorem no_cache_formats_afresh_witness :
    DefaultConfig.TimePrecision = 0 ∧ DefaultConfig.Time = true
      ∧ (New DefaultConfig).timeCache = none
      ∧ (∀ (now : Int) (buf : Bytes),
          (New DefaultConfig).printTime goRuntime now buf
            = (buf ++ goRuntime.format now DefaultConfig.TimeFormat ++ [32], none)) :=
  have h := no_cache_formats_afresh goRuntime DefaultConfig rfl rfl
  ⟨rfl, rfl, h.1, h.2.2.2.1⟩

/-! ## Durations -/

theorem tmod_of_pos (d p : Int) (hp : 0 < p) :
    Int.tmod d p = if 0 ≤ d then d % p else -((-d) % p) := by
  obtain ⟨n, rfl⟩ := Int.eq_ofNat_of_zero_le (le_of_lt hp)
  cases d with
  | ofNat m =>
    have h : (0 : Int) ≤ Int.ofNat m := Int.ofNat_nonneg m
    rw [if_pos h]
    rfl
  | negSucc m =>
    have h : ¬ (0 : Int) ≤ Int.negSucc m := by
      simp [Int.negSucc_lt_zero]
    rw [if_neg h]
    rfl

theorem durationTruncate_bounds (d p : Int) (hp : 0 < p) :
    durationTruncate d p = d - Int.tmod d p
      ∧ p ∣ d - Int.tmod d p
      ∧ min 0 d ≤ d - Int.tmod d p ∧ d - Int.tmod d p ≤ max 0 d
      ∧ -p < Int.tmod d p ∧ Int.tmod d p < p := by
  refine ⟨by simp [durationTruncate, not_le.mpr hp], ?_, ?_⟩
  · refine ⟨d.tdiv p, ?_⟩
    rw [Int.tmod_def]
    omega
  · rw [tmod_of_pos d p hp]
    by_cases h : 0 ≤ d
    · rw [if_pos h]
      have h1 := Int.emod_nonneg d (ne_of_gt hp)
      have h2 := Int.emod_lt_of_pos d hp
      have h3 : 0 ≤ p * (d / p) := mul_nonneg (le_of_lt hp) (Int.ediv_nonneg h (le_of_lt hp))
      have h4 := Int.emod_def d p
      omega
    · rw [if_neg h]
      have h1 := Int.emod_nonneg (-d) (ne_of_gt hp)
      have h2 := Int.emod_lt_of_pos (-d) hp
      have h3 : 0 ≤ p * (-d / p) :=
        mul_nonneg (le_of_lt hp) (Int.ediv_nonneg (by omega) (le_of_lt hp))
      have h4 := Int.emod_def (-d) p
      omega

/-- C21: with a precision `p > 0`, `Duration(k, d)` keeps the key and appends the text of
`d - (d rem p)`, which is a multiple of `p`, lies between 0 and `d` and is less than `p` away
from `d`; durations with the same truncated value give the same field; with the default
precision of 1 ms, 1500 ms renders as `1.5s`, and so does 1500.999999 ms. -/
theorem duration_renders_truncated (env : Env) (l : Logger) (buf : Bytes) (lev : Level)
    (k : Bytes) (d : Int) (hp : 0 < env.DurationPrecision) (hc : l.cfg.Color = false) :
    (Duration env k d).Key = k
      ∧ (Duration env k d).Renders
          (env.durationString (d - Int.tmod d env.DurationPrecision))
      ∧ l.printField buf lev (Duration env k d) false
          = buf ++ k ++ [61] ++ env.durationString (d - Int.tmod d env.DurationPrecision)
      ∧ env.DurationPrecision ∣ d - Int.tmod d env.DurationPrecision
      ∧ min 0 d ≤ d - Int.tmod d env.DurationPrecision
      ∧ d - Int.tmod d env.DurationPrecision ≤ max 0 d
      ∧ -env.DurationPrecision < Int.tmod d env.DurationPrecision
      ∧ Int.tmod d env.DurationPrecision < env.DurationPrecision
      ∧ (∀ d2 : Int, d2 - Int.tmod d2 env.DurationPrecision
            = d - Int.tmod d env.DurationPrecision →
          Duration env k d2 = Duration env k d)
      ∧ (New bareConfig).printField [] LevelInfo
          (Duration durationEnv (ascii "d") 1500000000) false = ascii "d=1.5s"
      ∧ (New bareConfig).printField [] LevelInfo
          (Duration durationEnv (ascii "d") 1500999999) false = ascii "d=1.5s" := by
  obtain ⟨htr, hdvd, hlo, hhi, hm1, hm2⟩ := durationTruncate_bounds d env.DurationPrecision hp
  have hr : (Duration env k d).Renders
      (env.durationString (d - Int.tmod d env.DurationPrecision)) := by
    intro b
    show b ++ env.durationString (durationTruncate d env.DurationPrecision) = _
    rw [htr]
  refine ⟨rfl, hr, (printField_plain l buf lev _ _ hc hr).1, hdvd, hlo, hhi, hm1, hm2, ?_,
    by decide, by decide⟩
  intro d2 h2
  have htr2 := (durationTruncate_bounds d2 env.DurationPrecision hp).1
  unfold Duration
  rw [htr, htr2, h2]

theorem duration_renders_truncated_witness :
    0 < durationEnv.DurationPrecision ∧ (New bareConfig).cfg.Color = false
      ∧ (New bareConfig).printField [] LevelInfo
          (Duration durationEnv (ascii "d") 1500999999) false
        = [] ++ ascii "d" ++ [61] ++ durationEnv.durationString
            (1500999999 - Int.tmod 1500999999 durationEnv.DurationPrecision)
      ∧ durationEnv.DurationPrecision
          ∣ 1500999999 - Int.tmod 1500999999 durationEnv.DurationPrecision :=
  have h := duration_renders_truncated durationEnv (New bareConfig) [] LevelInfo (ascii "d")
    1500999999 (by decide) rfl
  ⟨by decide, rfl, h.2.2.1, h.2.2.2.1⟩

/-! ## `insertionSort`, `levelName` and the time cache over a sequence of calls -/

/-- C23: `insertionSort`, and `sortFields` through it, returns (no index leaves the slice, the
loops end) a permutation of the input whose keys are in ascending byte-lexicographic order and
in which the fields of any one key stand in their original order; slices of length 0 and 1
come back as they are. -/
theorem insertionSort_stable (f : List Field) :
    ∃ g : List Field, insertionSort f = some g ∧ sortFields f = some g
      ∧ g.Perm f
      ∧ g.Pairwise (fun x y => x.Key ≤ y.Key)
      ∧ (∀ k : Bytes, g.filter (fun x => decide (x.Key = k))
          = f.filter (fun x => decide (x.Key = k)))
      ∧ insertionSort [] = some [] ∧ sortFields [] = some []
      ∧ (∀ x : Field, insertionSort [x] = some [x] ∧ sortFields [x] = some [x]) :=
  ⟨stableSort f, insertionSort_eq f, sortFields_eq f, stableSort_perm f, stableSort_sorted f,
    fun k => stableSort_filter f k, rfl, rfl, fun _ => ⟨rfl, rfl⟩⟩

theorem writesOnce_isSome (s : State) (r : Option (Logger × State)) (h : WritesOnce s r) :
    r.isSome = true := by
  obtain ⟨l', s', body, hr, _, _⟩ := h
  rw [hr]
  rfl

theorem print_isSome (rt : Runtime) (l : Logger) (s : State) (now : Int) (stack : Int → Bytes)
    (ctx : Context) (lev : Level) (msg : Bytes) (fields : Args)
    (h0 : LevelTrace ≤ lev) (h6 : lev ≤ LevelFatal) :
    (l.print rt s now stack ctx lev msg fields).isSome = true := by
  by_cases h : lev < l.cfg.Level
  · rw [print_inactive rt l s now stack ctx lev msg fields h]
    rfl
  · exact writesOnce_isSome s _
      (print_active rt l s now stack ctx lev msg fields (not_lt.mp h) h0 h6)

/-- C24: for each of the seven levels the entry points pass to `print`, `levelName` returns a
label of exactly 4 bytes; `levelName` panics only for a value outside Trace..Fatal, every
entry point either returns at once or calls `print` with its own level, and no entry point
panics. -/
theorem entry_points_never_panic (rt : Runtime) (l : Logger) (s : State) (now : Int)
    (stack : Int → Bytes) (ctx : Context) (msg : Bytes) (fields : Args) :
    (∀ lev ∈ [LevelTrace, LevelDebug, LevelInfo, LevelWarn, LevelError, LevelPanic,
        LevelFatal], ∃ name : Bytes, l.levelName lev = some name ∧ name.length = 4)
      ∧ (∀ lev : Level, l.levelName lev = none → lev < LevelTrace ∨ LevelFatal < lev)
      ∧ (l.Trace rt s now stack ctx msg fields = some (l, s)
          ∨ l.Trace rt s now stack ctx msg fields
            = l.print rt s now stack ctx LevelTrace msg fields)
      ∧ (l.Debug rt s now stack ctx msg fields = some (l, s)
          ∨ l.Debug rt s now stack ctx msg fields
            = l.print rt s now stack ctx LevelDebug msg fields)
      ∧ (l.Info rt s now stack ctx msg fields = some (l, s)
          ∨ l.Info rt s now stack ctx msg fields
            = l.print rt s now stack ctx LevelInfo msg fields)
      ∧ (l.Warn rt s now stack ctx msg fields = some (l, s)
          ∨ l.Warn rt s now stack ctx msg fields
            = l.print rt s now stack ctx LevelWarn msg fields)
      ∧ (l.Error rt s now stack ctx msg fields = some (l, s)
          ∨ l.Error rt s now stack ctx msg fields
            = l.print rt s now stack ctx LevelError msg fields)
      ∧ (l.Panic rt s now stack ctx msg fields = some (l, s)
          ∨ l.Panic rt s now stack ctx msg fields
            = l.print rt s now stack ctx LevelPanic msg fields)
      ∧ (l.Fatal rt s now stack ctx msg fields
          = (l.print rt s now stack ctx LevelFatal msg fields).map
              (fun r => (r.1, { r.2 with exited := some 1 })))
      ∧ (l.Trace rt s now stack ctx msg fields).isSome = true
      ∧ (l.Debug rt s now stack ctx msg fields).isSome = true
      ∧ (l.Info rt s now stack ctx msg fields).isSome = true
      ∧ (l.Warn rt s now stack ctx msg fields).isSome = true
      ∧ (l.Error rt s now stack ctx msg fields).isSome = true
      ∧ (l.Panic rt s now stack ctx msg fields).isSome = true
      ∧ (l.Fatal rt s now stack ctx msg fields).isSome = true := by
  have hp : ∀ lev : Level, LevelTrace ≤ lev → lev ≤ LevelFatal →
      (l.print rt s now stack ctx lev msg fields).isSome = true :=
    fun lev h0 h6 => print_isSome rt l s now stack ctx lev msg fields h0 h6
  refine ⟨?_, ?_, ?_, ?_, ?_, ?_, ?_, ?_, rfl, ?_, ?_, ?_, ?_, ?_, ?_, ?_⟩
  · intro lev hlev
    simp only [List.mem_cons, List.mem_singleton, List.not_mem_nil, or_false] at hlev
    have hlen : ∀ name : Bytes, l.levelName lev = some name → name.length = 4 := by
      intro name hname
      rcases hlev with h | h | h | h | h | h | h <;> subst h <;>
        simp [Logger.levelName, LevelTrace, LevelDebug, LevelInfo, LevelWarn, LevelError,
          LevelPanic, LevelFatal] at hname <;> subst hname <;> decide
    have h0 : LevelTrace ≤ lev := by
      rcases hlev with h | h | h | h | h | h | h <;> subst h <;> decide
    have h6 : lev ≤ LevelFatal := by
      rcases hlev with h | h | h | h | h | h | h <;> subst h <;> decide
    obtain ⟨name, hname⟩ := levelName_some l lev h0 h6
    exact ⟨name, hname, hlen name hname⟩
  · intro lev hnone
    by_contra hcon
    have h0 : LevelTrace ≤ lev := by
      by_contra h
      exact hcon (Or.inl (not_le.mp h))
    have h6 : lev ≤ LevelFatal := by
      by_contra h
      exact hcon (Or.inr (not_le.mp h))
    obtain ⟨name, hname⟩ := levelName_some l lev h0 h6
    rw [hname] at hnone
    exact absurd hnone (by simp)
  · unfold Logger.Trace
    split_ifs
    · exact Or.inr rfl
    · exact Or.inl rfl
  · unfold Logger.Debug
    split_ifs
    · exact Or.inr rfl
    · exact Or.inl rfl
  · unfold Logger.Info
    split_ifs
    · exact Or.inr rfl
    · exact Or.inl rfl
  · unfold Logger.Warn
    split_ifs
    · exact Or.inr rfl
    · exact Or.inl rfl
  · unfold Logger.Error
    split_ifs
    · exact Or.inr rfl
    · exact Or.inl rfl
  · unfold Logger.Panic
    split_ifs
    · exact Or.inr rfl
    · exact Or.inl rfl
  · unfold Logger.Trace
    split_ifs
    · exact hp _ (by decide) (by decide)
    · rfl
  · unfold Logger.Debug
    split_ifs
    · exact hp _ (by decide) (by decide)
    · rfl
  · unfold Logger.Info
    split_ifs
    · exact hp _ (by decide) (by decide)
    · rfl
  · unfold Logger.Warn
    split_ifs
    · exact hp _ (by decide) (by decide)
    · rfl
  · unfold Logger.Error
    split_ifs
    · exact hp _ (by decide) (by decide)
    · rfl
  · unfold Logger.Panic
    split_ifs
    · exact hp _ (by decide) (by decide)
    · rfl
  · unfold Logger.Fatal
    have := hp LevelFatal (by decide) (by decide)
    cases hr : l.print rt s now stack ctx LevelFatal msg fields with
    | none => rw [hr] at this; exact absurd this (by simp)
    | some r => rfl

theorem call_post (rt : Runtime) (fmt : Bytes) (p : Int) (hp : 0 < p) (hmax : p < 2 ^ 63)
    (pre : List Int) (c : TimeCache) (t : Int) (hf : c.format = fmt) (hprec : c.precision = p)
    (hinv : c.lastTime ≠ 0 → c.lastTimeStr = rt.format c.lastTime fmt ∧ c.lastTime ∈ pre) :
    (c.call rt t).2.format = fmt ∧ (c.call rt t).2.precision = p
      ∧ (c.call rt t).2.lastTimeStr = rt.format (c.call rt t).2.lastTime fmt
      ∧ (c.call rt t).1 = rt.format (c.call rt t).2.lastTime fmt
      ∧ ((c.call rt t).2.lastTime = t
          ∨ ((c.call rt t).2.lastTime ∈ pre ∧ t - (c.call rt t).2.lastTime < p)) := by
  unfold TimeCache.call
  by_cases h0 : c.lastTime = 0
  · simp [h0, hf, hprec]
  · have hz : (c.lastTime == 0) = false := by simpa using h0
    obtain ⟨hstr, hmem⟩ := hinv h0
    by_cases hlt : timeSub t c.lastTime < c.precision
    · have hlt' : t - c.lastTime < p := by
        rw [hprec] at hlt
        exact (timeSub_lt_iff t c.lastTime p hp hmax).mp hlt
      simp only [hz, Bool.not_false, Bool.true_and, hlt, decide_True, if_true]
      exact ⟨hf, hprec, hstr, hstr, Or.inr ⟨hmem, hlt'⟩⟩
    · rw [hprec] at hlt
      simp [hz, hlt, hf, hprec]

theorem calls_invariant_from (rt : Runtime) (fmt : Bytes) (p : Int) (hp : 0 < p)
    (hmax : p < 2 ^ 63) (ts pre : List Int) (c : TimeCache) (hf : c.format = fmt)
    (hprec : c.precision = p)
    (hinv : c.lastTime ≠ 0 → c.lastTimeStr = rt.format c.lastTime fmt ∧ c.lastTime ∈ pre)
    (i : Nat) (t : Int) (text : Bytes) (c' : TimeCache) (ht : ts[i]? = some t)
    (hc : (TimeCache.calls rt c ts)[i]? = some (text, c')) :
    c'.lastTimeStr = rt.format c'.lastTime fmt ∧ text = rt.format c'.lastTime fmt
      ∧ c'.lastTime ∈ pre ++ ts.take (i + 1)
      ∧ ((pre ++ ts).Pairwise (fun a b => a ≤ b) → 0 ≤ t - c'.lastTime ∧ t - c'.lastTime < p) := by
  induction ts generalizing pre c i with
  | nil => simp at ht
  | cons u us ih =>
    obtain ⟨h1, h2, h3, h4, h5⟩ := call_post rt fmt p hp hmax pre c u hf hprec hinv
    cases i with
    | zero =>
      simp only [List.getElem?_cons_zero, Option.some.injEq] at ht
      subst ht
      simp only [TimeCache.calls, List.getElem?_cons_zero, Option.some.injEq] at hc
      have e1 : (c.call rt u).1 = text := congrArg Prod.fst hc
      have e2 : (c.call rt u).2 = c' := congrArg Prod.snd hc
      rw [e1] at h4
      rw [e2] at h3 h4 h5
      refine ⟨h3, h4, ?_, ?_⟩
      · rcases h5 with h | ⟨h, _⟩
        · simp [h]
        · exact List.mem_append_left _ h
      · intro hs
        rcases h5 with h | ⟨hmem, hlt⟩
        · rw [h]; omega
        · have hle : c'.lastTime ≤ u :=
            (List.pairwise_append.mp hs).2.2 _ hmem _ (List.mem_cons_self _ _)
          omega
    | succ j =>
      simp only [List.getElem?_cons_succ] at ht
      simp only [TimeCache.calls, List.getElem?_cons_succ] at hc
      have hinv' : (c.call rt u).2.lastTime ≠ 0 →
          (c.call rt u).2.lastTimeStr = rt.format (c.call rt u).2.lastTime fmt
            ∧ (c.call rt u).2.lastTime ∈ pre ++ [u] := by
        intro _
        refine ⟨h3, ?_⟩
        rcases h5 with h | ⟨h, _⟩
        · simp [h]
        · exact List.mem_append_left _ h
      have := ih (pre ++ [u]) (c.call rt u).2 h1 h2 hinv' j ht hc
      simpa [List.take_succ_cons, List.append_assoc] using this

/-- C25: for a precision `0 < p` (a `time.Duration`, so below `2^63`) and any sequence of calls
of the closure returned by `timeCache(format, p)`: after each call the slot holds a text that
is `format` of the slot's instant, the call returned that text, the slot's instant `t'` was
supplied in this or an earlier call, and, when the instants are non-decreasing, the instant `t`
of the call satisfies `0 <= t - t' < p`. -/
theorem timeCache_calls_invariant (rt : Runtime) (format : Bytes) (precision : Int)
    (ts : List Int) (i : Nat) (t : Int) (text : Bytes) (c' : TimeCache)
    (hp : 0 < precision) (hmax : precision < 2 ^ 63) (ht : ts[i]? = some t)
    (hc : (TimeCache.calls rt (timeCache format precision) ts)[i]? = some (text, c')) :
    c'.lastTimeStr = rt.format c'.lastTime format
      ∧ text = rt.format c'.lastTime format
      ∧ c'.lastTime ∈ ts.take (i + 1)
      ∧ (ts.Pairwise (fun a b => a ≤ b) → 0 ≤ t - c'.lastTime ∧ t - c'.lastTime < precision) := by
  have := calls_invariant_from rt format precision hp hmax ts [] (timeCache format precision)
    rfl rfl (fun h => absurd rfl h) i t text c' ht hc
  simpa using this

theorem timeCache_calls_invariant_witness :
    (0 : Int) < 1000000 ∧ (1000000 : Int) < 2 ^ 63
      ∧ ([5000000000, 5000400000, 5002000000] : List Int)[1]? = some 5000400000
      ∧ (TimeCache.calls stampRuntime (timeCache [] 1000000)
          [5000000000, 5000400000, 5002000000])[1]?
        = some (ascii "5000000000",
            { format := [], precision := 1000000, lastTime := 5000000000,
              lastTimeStr := ascii "5000000000" })
      ∧ ascii "5000000000" = stampRuntime.format 5000000000 []
      ∧ (([5000000000, 5000400000, 5002000000] : List Int).Pairwise (fun a b => a ≤ b) →
          (0 : Int) ≤ 5000400000 - 5000000000 ∧ (5000400000 : Int) - 5000000000 < 1000000) :=
  have hc : (TimeCache.calls stampRuntime (timeCache [] 1000000)
      [5000000000, 5000400000, 5002000000])[1]?
      = some (ascii "5000000000",
          { format := [], precision := 1000000, lastTime := 5000000000,
            lastTimeStr := ascii "5000000000" }) := rfl
  have h := timeCache_calls_invariant stampRuntime [] 1000000
    [5000000000, 5000400000, 5002000000] 1 5000400000 (ascii "5000000000")
    { format := [], precision := 1000000, lastTime := 5000000000,
      lastTimeStr := ascii "5000000000" } (by decide) (by decide) rfl hc
  ⟨by decide, by decide, rfl, hc, h.2.1, h.2.2.2⟩

/-! ## Two calls of the time cache at the same time -/

theorem interleave_alone (rt : Runtime) (c : TimeCache) (t : Int) (b : CacheCall) :
    TimeCache.interleave rt [false, false, false, false] (c, CacheCall.start t, b)
      = ((c.call rt t).2, { t := t, pc := CachePc.done, result := (c.call rt t).1 }, b) := by
  by_cases h : (!(c.lastTime == 0) && decide (timeSub t c.lastTime < c.precision)) = true
  · simp [TimeCache.interleave, TimeCache.step, TimeCache.call, CacheCall.start, h]
  · simp [TimeCache.interleave, TimeCache.step, TimeCache.call, CacheCall.start, h]

/-- C22 fails on the code: the closure of `timeCache` takes no lock and `print` calls
`printTime` before `l.lock.Lock()`, so two calls can both find the slot stale and both
overwrite it. Under the schedule of `racedCalls` both calls return, and the slot is left with
the instant of the second call but the text of the first; a later call 0.8 ms after the
second one then returns the text of an instant 1.2 ms old, more than the precision of 1 ms. -/
theorem timeCache_unlocked_race :
    racedCalls.2.1.pc = CachePc.done ∧ racedCalls.2.2.pc = CachePc.done
      ∧ racedCalls.2.1.result = ascii "5000000000"
      ∧ racedCalls.2.2.result = ascii "5000400000"
      ∧ racedCalls.1.lastTime = 5000400000
      ∧ racedCalls.1.lastTimeStr = ascii "5000000000"
      ∧ racedCalls.1.lastTimeStr ≠ stampRuntime.format racedCalls.1.lastTime racedCalls.1.format
      ∧ (racedCalls.1.call stampRuntime 5001200000).1 = ascii "5000000000" := by
  decide

end Riff
